import Mathlib

/-!
# Remote-object subsystem: codec, remote-descriptor manager, data plane

A shallow embedding of `mrc/codable/encode.hpp`, `mrc/codable/decode.hpp`,
`internal/remote_descriptor/manager.hpp` and
`internal/data_plane/data_plane_resources.cpp`, followed by the properties
established about them.

Conventions of the embedding:
* a C++ reference member (`LocalSerializedWrapper& m_encoded_object`,
  `IEncodableStorage& m_storage`) becomes the address of the object referred
  to, held by the view; a member function is first described by what it does
  to that object (an explicitly threaded state) and then placed in a memory
  of objects by address;
* `typeid(T)` becomes a natural number (`TypeIndex`);
* a failing `CHECK` or a raised error becomes `Except.error`;
* what `codable_protocol<T>::serialize(obj, encoder, opts)` does for a given
  value is a finite tree of encoder calls (`SerializeBody`), and what
  `codable_protocol<T>::deserialize(decoder)` does is a tree of decoder calls
  (`DeserializeBody`).
-/

namespace mrc.codable

/-! ## Data model -/

/-- Fingerprint of a C++ type, standing for `typeid(T)`. -/
abbrev TypeIndex := Nat

/-- The address of an object: what a C++ reference member of a view
(`m_storage`, `m_encoded_object`) holds. Two views refer to the same object
exactly when these addresses are equal. -/
abbrev Address := Nat

/-- The address of the one object a top-level call works on: the wrapper
`std::make_unique<LocalSerializedWrapper>()` creates in the top-level
`encode2`, the handler passed to the top-level `decode2`. -/
def top_level_object : Address := 0

/-- Error kinds of the codec (section 7 of the specification). -/
inductive CodecError where
  | UnknownType
  | TypeMismatch
  | UnbalancedContext
  | ShortRead
  | ShortWrite
  deriving DecidableEq, Repr

/-- Modelled from the spec: the enumeration `DescriptorKind` (declared in
`mrc/codable/types.hpp`, not part of the sources at hand); the four variants
of a descriptor named in section 3. -/
inductive DescriptorKind where
  | Eager
  | RemoteBuffer
  | Meta
  | LocalBuffer
  deriving DecidableEq, Repr

/-- A `memory::const_buffer_view`: the bytes the view covers. -/
abbrev const_buffer_view := List Nat

/-- A `google::protobuf::Message`, as its serialised bytes. -/
abbrev Message := List Nat

/-- One descriptor of an encoded object. -/
structure Descriptor where
  kind : DescriptorKind
  payload : List Nat
  deriving DecidableEq, Repr

/-- One context (object) of an encoded object: type fingerprint, parent
context index (none for a root) and the descriptor index at which it starts. -/
structure ObjectContext where
  type_index_hash : TypeIndex
  parent_object_idx : Option Nat
  starting_descriptor_idx : Nat
  deriving DecidableEq, Repr

/-- Modelled from the spec: the class `LocalSerializedWrapper` (declared in
`mrc/codable/encoded_object_proto.hpp`, not part of the sources at hand). An
encoded object under construction: the vector of descriptors, the vector of
contexts and the current-context stack used only during encode (section 4.2),
the head of `current` being the innermost open context. -/
structure LocalSerializedWrapper where
  descriptors : List Descriptor
  objects : List ObjectContext
  current : List Nat
  deriving DecidableEq, Repr

namespace LocalSerializedWrapper

/-- The wrapper `std::make_unique<LocalSerializedWrapper>()` creates. -/
def empty : LocalSerializedWrapper := ⟨[], [], []⟩

/-- Modelled from the spec: `LocalSerializedWrapper::push_current_object_idx`
(`push_context(type-fingerprint) → context-handle`, section 4.1). Opens a
nested context: the new context takes the next index (indices are dense,
assigned in the order push occurs), its parent is the innermost open context,
and it becomes the innermost open context. Returns the new index. -/
def push_current_object_idx (T : TypeIndex) (w : LocalSerializedWrapper) :
    Nat × LocalSerializedWrapper :=
  (w.objects.length,
   { w with
     objects := w.objects ++ [⟨T, w.current.head?, w.descriptors.length⟩]
     current := w.objects.length :: w.current })

/-- Modelled from the spec: `LocalSerializedWrapper::pop_current_object_idx`
(`pop_context(context-handle)`, section 4.1): the handle must match the most
recent push that is still open; a mismatch is the push/pop mismatch error
`UnbalancedContext` of section 7. -/
def pop_current_object_idx (object_idx : Nat) (w : LocalSerializedWrapper) :
    Except CodecError LocalSerializedWrapper :=
  match w.current with
  | [] => .error .UnbalancedContext
  | top :: rest =>
    if top = object_idx then .ok { w with current := rest }
    else .error .UnbalancedContext

end LocalSerializedWrapper

/-! ## Encoder2 (`encode.hpp`) -/

/-- What `codable_protocol<T>::serialize(obj, encoder, opts)` does with the
`Encoder2<T>` it is handed, for one value `obj`: a finite tree of calls.
`encode2 U member k` is a nested `mrc::codable::encode2(member, encoder, opts)`
for a member of type `U` whose own protocol performs `member`. The protocol is
a friend of the encoder, so it also reaches `m_encoded_object` directly
(`push_current_object_idx`, `pop_current_object_idx`). -/
inductive SerializeBody where
  | ret : SerializeBody
  | write_descriptor (view : const_buffer_view) (kind : DescriptorKind)
      (k : SerializeBody) : SerializeBody
  | add_meta_data (meta_data : Message) (k : SerializeBody) : SerializeBody
  | encode2 (U : TypeIndex) (member : SerializeBody) (k : SerializeBody) : SerializeBody
  | push_current_object_idx (U : TypeIndex) (k : Nat → SerializeBody) : SerializeBody
  | pop_current_object_idx (object_idx : Nat) (k : SerializeBody) : SerializeBody

/-- The class `EncoderBase` (encode.hpp:92-132), by its two reference members:
the address of the encoded object it was built over and the block provider.
The functions below take the encoded object at that address as their state
`w`; `Encoder2.serialize2_in` and `encode2_nested_in` place them in the memory
of the process. -/
structure EncoderBase where
  m_encoded_object : Address
  m_block_provider : Nat
  deriving DecidableEq, Repr

/-- Modelled from the spec: `EncoderBase::write_descriptor` (declared in
`encode.hpp`, defined elsewhere): appends a descriptor of the given kind
holding the bytes of the view and returns its index. -/
def EncoderBase.write_descriptor (_self : EncoderBase) (view : const_buffer_view)
    (kind : DescriptorKind) (w : LocalSerializedWrapper) : Nat × LocalSerializedWrapper :=
  (w.descriptors.length, { w with descriptors := w.descriptors ++ [⟨kind, view⟩] })

/-- `EncoderBase::add_meta_data` (encode.hpp:113-117): the forward to the
storage is commented out; the body is `return -1;` and the encoded object is
not touched. -/
def EncoderBase.add_meta_data (_self : EncoderBase) (_meta_data : Message)
    (w : LocalSerializedWrapper) : Int × LocalSerializedWrapper :=
  (-1, w)

/-- The class template `Encoder2<T>`: the type it is bound to and its
`EncoderBase` part. -/
structure Encoder2 where
  T : TypeIndex
  base : EncoderBase
  deriving DecidableEq, Repr

/-- `Encoder2<T>::rebind<U>()` (encode.hpp:148-152):
`Encoder2<U>(m_encoded_object, m_block_provider)`. -/
def Encoder2.rebind (self : Encoder2) (U : TypeIndex) : Encoder2 :=
  ⟨U, ⟨self.base.m_encoded_object, self.base.m_block_provider⟩⟩

/-- `detail::serialize2(obj, encoder, opts)`: runs the protocol of `obj`
against `encoder`; `w` is the encoded object `encoder` refers to. The case of
a nested `encode2` is the body of `encode2(const T&, Encoder2<U>&, opts)` with
`Encoder2<T>::serialize2` unfolded in place (see `detail.serialize2_encode2`);
the rebound view refers to the same object (`Encoder2.rebind`), so the nested
call acts on `w` as well. -/
def detail.serialize2 (encoder : Encoder2) :
    SerializeBody → LocalSerializedWrapper → Except CodecError LocalSerializedWrapper
  | .ret, w => .ok w
  | .write_descriptor view kind k, w =>
    detail.serialize2 encoder k (encoder.base.write_descriptor view kind w).2
  | .add_meta_data meta_data k, w =>
    detail.serialize2 encoder k (encoder.base.add_meta_data meta_data w).2
  | .encode2 U member k, w =>
    let nested := if U = encoder.T then encoder else encoder.rebind U
    let pushed := w.push_current_object_idx nested.T
    match detail.serialize2 nested member pushed.2 with
    | .error e => .error e
    | .ok w2 =>
      match w2.pop_current_object_idx pushed.1 with
      | .error e => .error e
      | .ok w3 => detail.serialize2 encoder k w3
  | .push_current_object_idx U k, w =>
    let pushed := w.push_current_object_idx U
    detail.serialize2 encoder (k pushed.1) pushed.2
  | .pop_current_object_idx object_idx k, w =>
    match w.pop_current_object_idx object_idx with
    | .error e => .error e
    | .ok w2 => detail.serialize2 encoder k w2

/-- `Encoder2<T>::serialize2` (encode.hpp:141-146). -/
def Encoder2.serialize2 (self : Encoder2) (obj : SerializeBody)
    (w : LocalSerializedWrapper) : Except CodecError LocalSerializedWrapper :=
  let pushed := w.push_current_object_idx self.T
  match detail.serialize2 self obj pushed.2 with
  | .error e => .error e
  | .ok w2 => w2.pop_current_object_idx pushed.1

/-- The nested `encode2<T, U>(obj, Encoder2<U>& encoder, opts)`
(encode.hpp:175-190). -/
def encode2_nested (T : TypeIndex) (obj : SerializeBody) (encoder : Encoder2)
    (w : LocalSerializedWrapper) : Except CodecError LocalSerializedWrapper :=
  if T = encoder.T then encoder.serialize2 obj w
  else (encoder.rebind T).serialize2 obj w

/-- The top-level `encode2<T>(obj, block_provider, opts)` (encode.hpp:192-208):
a fresh wrapper, an `Encoder2<T>` over it, the nested `encode2`, and the
wrapper is returned (the debug string is only logged). -/
def encode2 (T : TypeIndex) (obj : SerializeBody) (block_provider : Nat) :
    Except CodecError LocalSerializedWrapper :=
  encode2_nested T obj ⟨T, ⟨top_level_object, block_provider⟩⟩ LocalSerializedWrapper.empty

/-- A protocol that only writes descriptors, adds meta data and makes nested
`encode2` calls: it never touches the context stack directly. -/
def SerializeBody.NestedOnly : SerializeBody → Prop
  | .ret => True
  | .write_descriptor _ _ k => k.NestedOnly
  | .add_meta_data _ k => k.NestedOnly
  | .encode2 _ member k => member.NestedOnly ∧ k.NestedOnly
  | .push_current_object_idx _ _ => False
  | .pop_current_object_idx _ _ => False

/-- The number of nested `encode2` calls in the tree of a protocol that does
not touch the context stack directly. -/
def SerializeBody.nested_calls : SerializeBody → Nat
  | .ret => 0
  | .write_descriptor _ _ k => k.nested_calls
  | .add_meta_data _ k => k.nested_calls
  | .encode2 _ member k => 1 + member.nested_calls + k.nested_calls
  | .push_current_object_idx _ _ => 0
  | .pop_current_object_idx _ k => k.nested_calls

/-- The contexts of an encoded object form a forest: the parent index of
every context that has one is strictly less than the index of the context. -/
def LocalSerializedWrapper.Forest (w : LocalSerializedWrapper) : Prop :=
  ∀ (i : Nat) (c : ObjectContext), w.objects[i]? = some c →
    ∀ p : Nat, c.parent_object_idx = some p → p < i

/-- Every open context is a recorded context, and the open contexts are
stacked in the order they were opened (innermost first, so strictly
decreasing indices). -/
def LocalSerializedWrapper.StackOrdered (w : LocalSerializedWrapper) : Prop :=
  (∀ x ∈ w.current, x < w.objects.length) ∧ w.current.Pairwise (fun a b => b < a)

/-! ## Encoder (`encode.hpp`, first interface) -/

/-- The interface `IEncodableStorage` (declared in `mrc/codable/api.hpp`, not
part of the sources at hand), as the operations `Encoder<T>` calls on it, over
an arbitrary storage state `S`. -/
structure IEncodableStorage (S : Type) where
  push_context : TypeIndex → S → Nat × S
  pop_context : Nat → S → Except CodecError S
  add_meta_data : Message → S → Int × S

/-- Modelled from the spec: a storage that implements the encoder contract of
section 4.1 on a `LocalSerializedWrapper` (`push_context`, `pop_context`,
`write_meta`), as one implementation of the interface `IEncodableStorage`. -/
def LocalSerializedWrapper.storage : IEncodableStorage LocalSerializedWrapper where
  push_context := fun T w => w.push_current_object_idx T
  pop_context := fun handle w => w.pop_current_object_idx handle
  add_meta_data := fun meta_data w =>
    ((w.descriptors.length : Int),
      { w with descriptors := w.descriptors ++ [⟨.Meta, meta_data⟩] })

/-- The class template `Encoder<T>`: the type it is bound to and the address
its reference member `m_storage` holds. The functions below take the storage
at that address as their state `s`. -/
structure Encoder where
  T : TypeIndex
  m_storage : Address
  deriving DecidableEq, Repr

/-- `Encoder<T>::serialize` (encode.hpp:41-46). `protocol` is what
`detail::serialize(sfinae::full_concept, obj, *this, opts)` does to the
storage for the value at hand. -/
def Encoder.serialize {S : Type} (m_storage : IEncodableStorage S) (self : Encoder)
    (protocol : Encoder → S → Except CodecError S) (s : S) : Except CodecError S :=
  let parent := m_storage.push_context self.T s
  match protocol self parent.2 with
  | .error e => .error e
  | .ok s2 => m_storage.pop_context parent.1 s2

/-- `Encoder<T>::add_meta_data` (encode.hpp:59-62). -/
def Encoder.add_meta_data {S : Type} (m_storage : IEncodableStorage S) (_self : Encoder)
    (meta_data : Message) (s : S) : Int × S :=
  m_storage.add_meta_data meta_data s

/-- `Encoder<T>::rebind<U>()` (encode.hpp:74-78): `Encoder<U>(m_storage)`. -/
def Encoder.rebind (self : Encoder) (U : TypeIndex) : Encoder := ⟨U, self.m_storage⟩

/-! ## Decoder2 (`decode.hpp`) -/

/-- Modelled from the spec: the class `DescriptorObjectHandler` (declared in
`mrc/codable/encoded_object_proto.hpp`, not part of the sources at hand): the
descriptors and contexts of an encoded object together with the decoding
cursor `payload-idx` (section 4.1). -/
structure DescriptorObjectHandler where
  descriptors : List Descriptor
  objects : List ObjectContext
  payload_idx : Nat
  deriving DecidableEq, Repr

/-- Modelled from the spec: `DescriptorObjectHandler::increment_payload_idx`:
advances the cursor by one. -/
def DescriptorObjectHandler.increment_payload_idx (h : DescriptorObjectHandler) :
    DescriptorObjectHandler :=
  { h with payload_idx := h.payload_idx + 1 }

/-- What `codable_protocol<T>::deserialize(decoder)` does with the
`Decoder2<T>` it is handed: a tree of calls whose continuations receive the
results. `decode2 U member k` is a nested `mrc::codable::decode2<U>(decoder)`
for a member whose own protocol performs `member`. Decoded values of all types
live in one type `V`. -/
inductive DeserializeBody (V : Type) where
  | ret (value : V) : DeserializeBody V
  | read_descriptor (k : List Nat → DeserializeBody V) : DeserializeBody V
  | descriptor_size (k : Nat → DeserializeBody V) : DeserializeBody V
  | decode2 (U : TypeIndex) (member : DeserializeBody V) (k : V → DeserializeBody V) :
      DeserializeBody V

/-- Modelled from the spec: `DecoderBase::read_descriptor` (declared in
`decode.hpp`, defined elsewhere): yields the bytes of the descriptor under the
cursor; reading past the end fails with `ShortRead`. The cursor itself is only
moved by `increment_payload_idx`. -/
def DecoderBase.read_descriptor (h : DescriptorObjectHandler) : Except CodecError (List Nat) :=
  match h.descriptors[h.payload_idx]? with
  | none => .error .ShortRead
  | some d => .ok d.payload

/-- Modelled from the spec: `DecoderBase::descriptor_size` (declared in
`decode.hpp`, defined elsewhere): the number of bytes of the descriptor under
the cursor. -/
def DecoderBase.descriptor_size (h : DescriptorObjectHandler) : Except CodecError Nat :=
  match h.descriptors[h.payload_idx]? with
  | none => .error .ShortRead
  | some d => .ok d.payload.length

/-- The class template `Decoder2<T>`: the type it is bound to and the address
its reference member `m_encoded_object` (of `DecoderBase`) holds. The
functions below take the handler at that address as their state `h`. -/
structure Decoder2 where
  T : TypeIndex
  m_encoded_object : Address
  deriving DecidableEq, Repr

/-- `Decoder2<T>::rebind<U>()` (decode.hpp:151-157):
`Decoder2<U>(m_encoded_object)`. -/
def Decoder2.rebind (self : Decoder2) (U : TypeIndex) : Decoder2 :=
  ⟨U, self.m_encoded_object⟩

/-- `detail::deserialize2<T>(decoder)`: runs the protocol against `decoder`.
The case of a nested `decode2` is the body of `decode2<T, U>(decoder)` with
`Decoder2<T>::deserialize` unfolded in place (see
`detail.deserialize2_decode2`). -/
def detail.deserialize2 {V : Type} (decoder : Decoder2) :
    DeserializeBody V → DescriptorObjectHandler →
      Except CodecError (V × DescriptorObjectHandler)
  | .ret value, h => .ok (value, h)
  | .read_descriptor k, h =>
    match DecoderBase.read_descriptor h with
    | .error e => .error e
    | .ok bytes => detail.deserialize2 decoder (k bytes) h
  | .descriptor_size k, h =>
    match DecoderBase.descriptor_size h with
    | .error e => .error e
    | .ok n => detail.deserialize2 decoder (k n) h
  | .decode2 U member k, h =>
    let nested := if U = decoder.T then decoder else decoder.rebind U
    match detail.deserialize2 nested member h with
    | .error e => .error e
    | .ok (value, h2) => detail.deserialize2 decoder (k value) h2.increment_payload_idx

/-- `Decoder2<T>::deserialize` (decode.hpp:144-149). -/
def Decoder2.deserialize {V : Type} (self : Decoder2) (protocol : DeserializeBody V)
    (h : DescriptorObjectHandler) : Except CodecError (V × DescriptorObjectHandler) :=
  match detail.deserialize2 self protocol h with
  | .error e => .error e
  | .ok (value, h2) => .ok (value, h2.increment_payload_idx)

/-- The nested `decode2<T, U>(const Decoder2<U>& decoder)`
(decode.hpp:173-188). -/
def decode2_nested {V : Type} (T : TypeIndex) (protocol : DeserializeBody V)
    (decoder : Decoder2) (h : DescriptorObjectHandler) :
    Except CodecError (V × DescriptorObjectHandler) :=
  if T = decoder.T then decoder.deserialize protocol h
  else (decoder.rebind T).deserialize protocol h

/-- The top-level `decode2<T>(const DescriptorObjectHandler& encoded)`
(decode.hpp:190-195). The handler is returned next to the value because its
cursor is changed through the `const` reference. -/
def decode2 {V : Type} (T : TypeIndex) (protocol : DeserializeBody V)
    (encoded : DescriptorObjectHandler) : Except CodecError (V × DescriptorObjectHandler) :=
  decode2_nested T protocol ⟨T, top_level_object⟩ encoded

/-- The two halves of `codable_protocol<T>` for a type whose values are drawn
from `V`. -/
structure codable_protocol (V : Type) where
  serialize : V → SerializeBody
  deserialize : DeserializeBody V

/-- An example protocol in the style of the protocol of a byte vector: the
length is encoded as a nested value of another type (fingerprint 2), then the
bytes are written as the vector's own descriptor; decoding mirrors it. -/
def byte_vector_protocol : codable_protocol (List Nat) where
  serialize := fun v =>
    .encode2 2 (.write_descriptor [v.length] .Eager .ret) (.write_descriptor v .Eager .ret)
  deserialize :=
    .decode2 2 (.read_descriptor fun bytes => .ret bytes)
      fun _ => .read_descriptor fun bytes => .ret bytes

/-! ## Protocols that read back what they wrote -/

/-- The interface `IDecodableStorage` (declared in `mrc/codable/api.hpp`, not
part of the sources at hand), as far as `Decoder<T>` uses it here: the two
memory resources of the storage, named by their identity. -/
structure IDecodableStorage where
  host_memory_resource : Nat
  device_memory_resource : Nat
  deriving DecidableEq, Repr

/-- The class template `Decoder<T>` with the storage it was built over. -/
structure Decoder where
  T : TypeIndex
  m_storage : IDecodableStorage
  deriving DecidableEq, Repr

/-- `Decoder<T>::host_memory_resource` (decode.hpp:57-60). -/
def Decoder.host_memory_resource (self : Decoder) : Nat :=
  self.m_storage.host_memory_resource

/-- `Decoder<T>::device_memory_resource` (decode.hpp:62-65): the body is
`return m_storage.host_memory_resource();`. -/
def Decoder.device_memory_resource (self : Decoder) : Nat :=
  self.m_storage.host_memory_resource

/-- The number of nested `decode2` calls the protocol triggers when it is run
against `decoder` from the handler state `h` (calls made by the members'
protocols included). -/
def detail.nested_decode2_calls {V : Type} (decoder : Decoder2) :
    DeserializeBody V → DescriptorObjectHandler → Nat
  | .ret _, _ => 0
  | .read_descriptor k, h =>
    match DecoderBase.read_descriptor h with
    | .error _ => 0
    | .ok bytes => detail.nested_decode2_calls decoder (k bytes) h
  | .descriptor_size k, h =>
    match DecoderBase.descriptor_size h with
    | .error _ => 0
    | .ok n => detail.nested_decode2_calls decoder (k n) h
  | .decode2 U member k, h =>
    let nested := if U = decoder.T then decoder else decoder.rebind U
    match detail.deserialize2 nested member h with
    | .error _ => 1 + detail.nested_decode2_calls nested member h
    | .ok (value, h2) =>
      1 + detail.nested_decode2_calls nested member h +
        detail.nested_decode2_calls decoder (k value) h2.increment_payload_idx

/-- `encoder.serialize2(obj, opts)` in a memory of encoded objects: it acts on
the object at the address `m_encoded_object` of the view and on no other. -/
def Encoder2.serialize2_in (self : Encoder2) (obj : SerializeBody)
    (objects : Address → LocalSerializedWrapper) :
    Except CodecError (Address → LocalSerializedWrapper) :=
  match self.serialize2 obj (objects self.base.m_encoded_object) with
  | .error e => .error e
  | .ok w => .ok (Function.update objects self.base.m_encoded_object w)

/-- The nested `encode2<T, U>(obj, Encoder2<U>& encoder, opts)`
(encode.hpp:175-190) in a memory of encoded objects. -/
def encode2_nested_in (T : TypeIndex) (obj : SerializeBody) (encoder : Encoder2)
    (objects : Address → LocalSerializedWrapper) :
    Except CodecError (Address → LocalSerializedWrapper) :=
  if T = encoder.T then encoder.serialize2_in obj objects
  else (encoder.rebind T).serialize2_in obj objects

/-- `encoder.serialize(obj, opts)` of an `Encoder<T>` in a memory of storages:
it acts on the storage at the address `m_storage` of the view. -/
def Encoder.serialize_in {S : Type} (m_storage : IEncodableStorage S) (self : Encoder)
    (protocol : Encoder → S → Except CodecError S) (storages : Address → S) :
    Except CodecError (Address → S) :=
  match self.serialize m_storage protocol (storages self.m_storage) with
  | .error e => .error e
  | .ok s => .ok (Function.update storages self.m_storage s)

/-- `decoder.deserialize()` in a memory of handlers: it reads, and moves the
cursor of, the handler at the address `m_encoded_object` of the view. -/
def Decoder2.deserialize_in {V : Type} (self : Decoder2) (protocol : DeserializeBody V)
    (handlers : Address → DescriptorObjectHandler) :
    Except CodecError (V × (Address → DescriptorObjectHandler)) :=
  match self.deserialize protocol (handlers self.m_encoded_object) with
  | .error e => .error e
  | .ok (value, h) => .ok (value, Function.update handlers self.m_encoded_object h)

/-- The nested `decode2<T, U>(const Decoder2<U>& decoder)`
(decode.hpp:173-188) in a memory of handlers. -/
def decode2_nested_in {V : Type} (T : TypeIndex) (protocol : DeserializeBody V)
    (decoder : Decoder2) (handlers : Address → DescriptorObjectHandler) :
    Except CodecError (V × (Address → DescriptorObjectHandler)) :=
  if T = decoder.T then decoder.deserialize_in protocol handlers
  else (decoder.rebind T).deserialize_in protocol handlers

end mrc.codable

namespace srf.internal.remote_descriptor

/-! ## Remote-descriptor manager (`manager.hpp`)

The header declares the manager; `decrement_tokens`,
`register_encoded_object`, `size` and `encoding` are defined in a translation
unit that is not part of the sources at hand, and `Storage` in `storage.hpp`.
They are modelled from section 4.3 of the specification. -/

/-- Error kinds of the manager (section 7), and the rejection of a publish
with no tokens (section 8). -/
inductive ManagerError where
  | NotFound
  | OverRelease
  | Rejected
  deriving DecidableEq, Repr

/-- An encoded object as the manager stores it. -/
abbrev EncodedStorage := List mrc.codable.Descriptor

/-- Modelled from the spec: the class `Storage` (`storage.hpp`), a stored
object: the encoded object and its token count. -/
structure Storage where
  encoding : EncodedStorage
  tokens : Nat
  deriving DecidableEq, Repr

/-- Modelled from the spec: a handle (instance id, object id, tokens held),
what `srf::runtime::RemoteDescriptor` wraps. -/
structure RemoteDescriptor where
  instance_id : Nat
  object_id : Nat
  tokens : Nat
  deriving DecidableEq, Repr

/-- The data members of `Manager` (manager.hpp:107-115) that hold objects:
`m_stored_objects` is the `std::map<std::size_t, Storage>`, a finite map with
one entry per key; `next_object_id` is the source of fresh object ids. -/
structure Manager where
  m_stored_objects : AList (fun _ : Nat => Storage)
  m_instance_id : Nat
  next_object_id : Nat

namespace Manager

/-- Modelled from the spec: `Manager::size`, the number of stored objects. -/
def size (self : Manager) : Nat := self.m_stored_objects.entries.length

/-- Modelled from the spec: `Manager::encoding(object_id)`
(`lookup(object-id)`), which fails `NotFound` for an id that is not stored. -/
def encoding (self : Manager) (object_id : Nat) : Except ManagerError EncodedStorage :=
  match self.m_stored_objects.lookup object_id with
  | none => .error .NotFound
  | some stored => .ok stored.encoding

/-- Modelled from the spec: `Manager::register_encoded_object`
(`publish(encoded object, initial-tokens) → handle`): assigns a fresh object
id, inserts the stored object with `token-count = initial-tokens` and returns
a handle holding all of them; zero initial tokens are rejected. -/
def register_encoded_object (self : Manager) (object : EncodedStorage) (initial_tokens : Nat) :
    Except ManagerError (RemoteDescriptor × Manager) :=
  if initial_tokens = 0 then .error .Rejected
  else .ok (⟨self.m_instance_id, self.next_object_id, initial_tokens⟩,
    { self with
      m_stored_objects := self.m_stored_objects.insert self.next_object_id ⟨object, initial_tokens⟩
      next_object_id := self.next_object_id + 1 })

/-- What one call of `decrement_tokens` did. -/
inductive DecrementOutcome where
  | Decremented
  | Erased
  | OverRelease
  deriving DecidableEq, Repr

/-- Modelled from the spec: `Manager::decrement_tokens(object_id, token_count)`
(`decrement(object-id, n)`): `token-count -= n`; if the result is 0 the stored
object is removed; if it is negative, or the id is not stored, the call fails
`OverRelease` and the id stays unusable (it is removed and never assigned
again). -/
def decrement_tokens (self : Manager) (object_id : Nat) (token_count : Nat) :
    DecrementOutcome × Manager :=
  match self.m_stored_objects.lookup object_id with
  | none => (.OverRelease, self)
  | some stored =>
    let result : Int := (stored.tokens : Int) - (token_count : Int)
    if result = 0 then
      (.Erased, { self with m_stored_objects := self.m_stored_objects.erase object_id })
    else if result < 0 then
      (.OverRelease, { self with m_stored_objects := self.m_stored_objects.erase object_id })
    else
      (.Decremented, { self with
        m_stored_objects :=
          self.m_stored_objects.insert object_id { stored with tokens := result.toNat } })

/-- The decrement handler: the decrement messages `(object_id, token_count)`
taken from the decrement channel are processed one by one, in the order of
arrival; the outcome of each call is recorded. -/
def process_decrements (self : Manager) :
    List (Nat × Nat) → List (Nat × DecrementOutcome) × Manager
  | [] => ([], self)
  | (object_id, token_count) :: rest =>
    let step := self.decrement_tokens object_id token_count
    let tail := process_decrements step.2 rest
    ((object_id, step.1) :: tail.1, tail.2)

/-- The tokens the decrement messages of a list take from `object_id` in
total. -/
def decrement_total (object_id : Nat) : List (Nat × Nat) → Nat
  | [] => 0
  | (id, token_count) :: rest =>
    (if id = object_id then token_count else 0) + decrement_total object_id rest

end Manager

end srf.internal.remote_descriptor

namespace mrc.data_plane

/-! ## Data plane (`data_plane_resources.cpp`) -/

/-- Modelled from the spec: `Request::State` (`request.hpp` is not part of the
sources at hand): `Init → Running → {Completed, Cancelled, Failed}`. -/
inductive Request.State where
  | Init
  | Running
  | Completed
  | Cancelled
  | Failed
  deriving DecidableEq, Repr

/-- A `ucs_status_ptr_t` as the fabric returns it: null, an error status, or
the handle of an accepted operation. -/
inductive ucs_status_ptr where
  | null
  | error (status : Nat)
  | request (handle : Nat)
  deriving DecidableEq, Repr

/-- `UCS_PTR_IS_ERR`. -/
def UCS_PTR_IS_ERR : ucs_status_ptr → Bool
  | .error _ => true
  | _ => false

/-- The members of `Request` that `send_async` and `receive_async` touch. -/
structure Request where
  m_request : ucs_status_ptr
  m_state : Request.State
  deriving DecidableEq, Repr

/-- A `Request` created by `std::make_shared`, with the use count of its
control block. -/
structure SharedRequest where
  object : Request
  use_count : Nat
  deriving DecidableEq, Repr

/-- What a `void* user_data` can point at in these two functions: an object
created with `new` (by its address on the heap), or a local variable of the
function that made the call (gone when that function returns). -/
inductive UserData where
  | heap (address : Nat)
  | local_variable (name : String)
  deriving DecidableEq, Repr

/-- The completion callbacks of `Callbacks` the two functions install. -/
inductive Callback where
  | send2
  | recv2
  deriving DecidableEq, Repr

/-- One operation posted to the fabric: the arguments of `ucp_tag_send_nbx` /
`ucp_tag_recv_nbx` together with the callback and the user data of the
`ucp_request_param_t`. For a send `target` is the endpoint handle and `mask`
is unused; for a receive `target` is the worker handle. -/
structure FabricOp where
  cb : Callback
  target : Nat
  addr : Nat
  bytes : Nat
  tag : Nat
  mask : Nat
  user_data : UserData
  deriving DecidableEq, Repr

/-- The part of the process state the two functions act on: the requests made
by `std::make_shared<Request>()` (a request is named by its position), the
`std::shared_ptr<Request>` objects made by `new` (named by their position;
each is empty or owns a request), and the operations posted to the fabric. -/
structure World where
  requests : List SharedRequest
  holders : List (Option Nat)
  posted : List FabricOp
  deriving DecidableEq, Repr

/-- A failed `CHECK` ends the process. -/
inductive Abort where
  | check_failed
  deriving DecidableEq, Repr

namespace World

/-- `new std::shared_ptr<Request>()`: a new, empty holder on the heap. -/
def new_holder (w : World) : Nat × World :=
  (w.holders.length, { w with holders := w.holders ++ [none] })

/-- `std::make_shared<Request>()`: a new request (`m_request == nullptr`,
`m_state == Init`) owned by one shared pointer. -/
def make_shared (w : World) : Nat × World :=
  (w.requests.length, { w with requests := w.requests ++ [⟨⟨.null, .Init⟩, 1⟩] })

/-- `*request_ptr = request`: the holder takes a further strong reference. -/
def assign_holder (request_ptr request : Nat) (w : World) : World :=
  { w with
    holders := w.holders.set request_ptr (some request)
    requests := w.requests.modify (fun r => { r with use_count := r.use_count + 1 }) request }

/-- Applies `f` to the request object named `request`. -/
def update (request : Nat) (f : Request → Request) (w : World) : World :=
  { w with requests := w.requests.modify (fun r => { r with object := f r.object }) request }

/-- The request object named `request`. -/
def get (request : Nat) (w : World) : Option Request :=
  (w.requests[request]?).map (·.object)

/-- The use count of the request named `request` (0 when there is none). -/
def use_count (request : Nat) (w : World) : Nat :=
  ((w.requests[request]?).map (·.use_count)).getD 0

/-- A `std::shared_ptr<Request>` to `request` is destroyed (the caller drops
the handle it was returned). -/
def drop_handle (request : Nat) (w : World) : World :=
  { w with requests := w.requests.modify (fun r => { r with use_count := r.use_count - 1 }) request }

end World

/-- The state in which `send_async` (data_plane_resources.cpp:170-198) calls
`ucp_tag_send_nbx`, with the operation it posts: lines 175-191. `none` when
one of the two `CHECK`s on the fresh request fails. -/
def send_async_prepare (endpoint addr bytes tag : Nat) (w : World) :
    Option (Nat × Nat × FabricOp × World) :=
  let request_ptr := w.new_holder
  let request := request_ptr.2.make_shared
  -- Increment the request's reference count
  let w3 := request.2.assign_holder request_ptr.1 request.1
  match w3.get request.1 with
  | none => none
  | some r =>
    if r.m_request = .null ∧ r.m_state = .Init then
      let w4 := w3.update request.1 (fun r => { r with m_state := .Running })
      let send_params : FabricOp :=
        { cb := .send2, target := endpoint, addr := addr, bytes := bytes, tag := tag, mask := 0,
          user_data := .heap request_ptr.1 }
      some (request_ptr.1, request.1, send_params, w4)
    else none

/-- `DataPlaneResources2::send_async` (data_plane_resources.cpp:170-198).
`ucp_tag_send_nbx` is the fabric's answer to the posted operation. Returns
the request handed to the caller. -/
def send_async (ucp_tag_send_nbx : FabricOp → ucs_status_ptr)
    (endpoint addr bytes tag : Nat) (w : World) : Except Abort (Nat × World) :=
  match send_async_prepare endpoint addr bytes tag w with
  | none => .error .check_failed
  | some (_, request, send_params, w4) =>
    let status := ucp_tag_send_nbx send_params
    let w5 := { w4.update request (fun r => { r with m_request := status }) with
                posted := w4.posted ++ [send_params] }
    if status = .null then .error .check_failed
    else if UCS_PTR_IS_ERR status then .error .check_failed
    else .ok (request, w5)

/-- The state in which `receive_async` (data_plane_resources.cpp:199-225)
calls `ucp_tag_recv_nbx`, with the operation it posts: lines 204-218. The
user data is `&request`, the address of the local `std::shared_ptr`. -/
def receive_async_prepare (worker addr bytes tag mask : Nat) (w : World) :
    Option (Nat × Nat × FabricOp × World) :=
  let request_ptr := w.new_holder
  let request := request_ptr.2.make_shared
  -- Increment the request's reference count
  let w3 := request.2.assign_holder request_ptr.1 request.1
  match w3.get request.1 with
  | none => none
  | some r =>
    if r.m_request = .null ∧ r.m_state = .Init then
      let w4 := w3.update request.1 (fun r => { r with m_state := .Running })
      let params : FabricOp :=
        { cb := .recv2, target := worker, addr := addr, bytes := bytes, tag := tag, mask := mask,
          user_data := .local_variable "request" }
      some (request_ptr.1, request.1, params, w4)
    else none

/-- `DataPlaneResources2::receive_async` (data_plane_resources.cpp:199-225).
`worker` is `m_worker->handle()`. -/
def receive_async (ucp_tag_recv_nbx : FabricOp → ucs_status_ptr)
    (worker addr bytes tag mask : Nat) (w : World) : Except Abort (Nat × World) :=
  match receive_async_prepare worker addr bytes tag mask w with
  | none => .error .check_failed
  | some (_, request, params, w4) =>
    let status := ucp_tag_recv_nbx params
    let w5 := { w4.update request (fun r => { r with m_request := status }) with
                posted := w4.posted ++ [params] }
    if status = .null then .error .check_failed
    else if UCS_PTR_IS_ERR status then .error .check_failed
    else .ok (request, w5)

/-! ### Request states inside `send_async` and `receive_async` -/

/-- The process states `send_async` (data_plane_resources.cpp:170-198) passes
through, in order: on entry, after line 175 (`new`), after line 177
(`make_shared`), after line 180 (the holder is assigned), after line 184
(`m_state = Running`), and after line 193 (the send is posted and `m_request`
holds the fabric's answer). -/
def send_async_points (ucp_tag_send_nbx : FabricOp → ucs_status_ptr)
    (endpoint addr bytes tag : Nat) (w : World) : List World :=
  let request_ptr := w.new_holder
  let request := request_ptr.2.make_shared
  let w3 := request.2.assign_holder request_ptr.1 request.1
  let w4 := w3.update request.1 (fun r => { r with m_state := .Running })
  let send_params : FabricOp :=
    { cb := .send2, target := endpoint, addr := addr, bytes := bytes, tag := tag, mask := 0,
      user_data := .heap request_ptr.1 }
  let w5 := { w4.update request.1 (fun r => { r with m_request := ucp_tag_send_nbx send_params })
              with posted := w4.posted ++ [send_params] }
  [w, request_ptr.2, request.2, w3, w4, w5]

/-- The process states `receive_async` (data_plane_resources.cpp:199-225)
passes through, in order: on entry, after lines 204, 206, 209, 213 and 220. -/
def receive_async_points (ucp_tag_recv_nbx : FabricOp → ucs_status_ptr)
    (worker addr bytes tag mask : Nat) (w : World) : List World :=
  let request_ptr := w.new_holder
  let request := request_ptr.2.make_shared
  let w3 := request.2.assign_holder request_ptr.1 request.1
  let w4 := w3.update request.1 (fun r => { r with m_state := .Running })
  let params : FabricOp :=
    { cb := .recv2, target := worker, addr := addr, bytes := bytes, tag := tag, mask := mask,
      user_data := .local_variable "request" }
  let w5 := { w4.update request.1 (fun r => { r with m_request := ucp_tag_recv_nbx params })
              with posted := w4.posted ++ [params] }
  [w, request_ptr.2, request.2, w3, w4, w5]

/-- A fabric request handle that was accepted: neither null nor an error. -/
def ucs_status_ptr.accepted (status : ucs_status_ptr) : Prop :=
  status ≠ .null ∧ UCS_PTR_IS_ERR status = false

/-- Every request of the process that is `Running` has an accepted fabric
request handle. -/
def World.running_accepted (w : World) : Prop :=
  ∀ r ∈ w.requests, r.object.m_state = .Running → r.object.m_request.accepted

/-! ### Worker progress -/

/-- The class `ucx::Worker` (`internal/ucx/worker.hpp`, not part of the
sources at hand), as far as `DataPlaneResources2` uses it: `progress()`
advances the worker once and returns the count of work done. The state `W` of
the worker (its in-flight operations) is arbitrary. -/
structure Worker (W : Type) where
  progress : W → Nat × W

/-- The worker state after `k` calls of `progress()`. -/
def Worker.advance {W : Type} (m_worker : Worker W) : Nat → W → W
  | 0, w => w
  | k + 1, w => Worker.advance m_worker k (m_worker.progress w).2

/-- `DataPlaneResources2::progress` (data_plane_resources.cpp:156-160):
forwards the worker once. -/
def DataPlaneResources2.progress {W : Type} (m_worker : Worker W) (w : W) : Nat × W :=
  m_worker.progress w

/-- `DataPlaneResources2::flush` (data_plane_resources.cpp:162-168):
`while (m_worker->progress() != 0) {}`. The function returns `void`; the
result is the worker state it leaves. `fuel` bounds the number of `progress()`
calls; `none` when the loop has not ended within it. -/
def DataPlaneResources2.flush {W : Type} (m_worker : Worker W) : Nat → W → Option W
  | 0, _ => none
  | fuel + 1, w =>
    let r := m_worker.progress w
    if r.1 ≠ 0 then DataPlaneResources2.flush m_worker fuel r.2 else some r.2

/-- The counts returned by the `progress()` calls `flush` makes, in order
(`none` when the loop has not ended within `fuel` calls). -/
def DataPlaneResources2.flush_counts {W : Type} (m_worker : Worker W) :
    Nat → W → Option (List Nat)
  | 0, _ => none
  | fuel + 1, w =>
    let r := m_worker.progress w
    if r.1 ≠ 0 then (DataPlaneResources2.flush_counts m_worker fuel r.2).map (fun l => r.1 :: l)
    else some [r.1]

/-- What a call hands back to its caller: nothing, for a function declared
`void`, or a `uint32_t` value. -/
inductive Returned where
  | void
  | uint32 (value : Nat)
  deriving DecidableEq, Repr

/-- What `progress()` hands back: it is declared
`uint32_t DataPlaneResources2::progress()` and returns the worker's count. -/
def DataPlaneResources2.progress_returned {W : Type} (m_worker : Worker W) (w : W) : Returned :=
  .uint32 (DataPlaneResources2.progress m_worker w).1

/-- What `flush()` hands back when it returns: it is declared
`void DataPlaneResources2::flush()` and its body has no `return` statement. -/
def DataPlaneResources2.flush_returned {W : Type} (m_worker : Worker W) (fuel : Nat) (w : W) :
    Option Returned :=
  (DataPlaneResources2.flush m_worker fuel w).map (fun _ => .void)

/-! ### Service lifecycle of `DataPlaneResources` -/

/-- The two services `DataPlaneResources` owns. -/
inductive Member where
  | m_server
  | m_client
  deriving DecidableEq, Repr

/-- The `Service` calls made on them. -/
inductive ServiceCall where
  | service_start
  | service_await_live
  | service_stop
  | service_kill
  | service_await_join
  deriving DecidableEq, Repr

/-- Dereferencing a `std::unique_ptr` that holds no object. -/
inductive Fault where
  | null_dereference (member : Member)
  deriving DecidableEq, Repr

/-- The members of `DataPlaneResources` the lifecycle functions use: the two
`std::unique_ptr`s (`none` is a null pointer, `some` names the object owned),
and the calls made so far on the server and the client, in order. -/
structure DataPlaneResources where
  m_server : Option Nat
  m_client : Option Nat
  calls : List (Member × ServiceCall)
  deriving DecidableEq, Repr

namespace DataPlaneResources

/-- `m_server->f()`. -/
def on_server (f : ServiceCall) (self : DataPlaneResources) : Except Fault DataPlaneResources :=
  match self.m_server with
  | none => .error (.null_dereference .m_server)
  | some _ => .ok { self with calls := self.calls ++ [(.m_server, f)] }

/-- `m_client->f()`. -/
def on_client (f : ServiceCall) (self : DataPlaneResources) : Except Fault DataPlaneResources :=
  match self.m_client with
  | none => .error (.null_dereference .m_client)
  | some _ => .ok { self with calls := self.calls ++ [(.m_client, f)] }

/-- `DataPlaneResources::do_service_start` (data_plane_resources.cpp:78-82). -/
def do_service_start (self : DataPlaneResources) : Except Fault DataPlaneResources :=
  match self.on_server .service_start with
  | .error e => .error e
  | .ok s => s.on_client .service_start

/-- `DataPlaneResources::do_service_await_live`
(data_plane_resources.cpp:84-88). -/
def do_service_await_live (self : DataPlaneResources) : Except Fault DataPlaneResources :=
  match self.on_server .service_await_live with
  | .error e => .error e
  | .ok s => s.on_client .service_await_live

/-- `DataPlaneResources::do_service_stop` (data_plane_resources.cpp:90-94). -/
def do_service_stop (self : DataPlaneResources) : Except Fault DataPlaneResources :=
  self.on_client .service_stop

/-- `DataPlaneResources::do_service_kill` (data_plane_resources.cpp:96-100). -/
def do_service_kill (self : DataPlaneResources) : Except Fault DataPlaneResources :=
  match self.on_server .service_kill with
  | .error e => .error e
  | .ok s => s.on_client .service_kill

/-- `DataPlaneResources::do_service_await_join`
(data_plane_resources.cpp:102-107). -/
def do_service_await_join (self : DataPlaneResources) : Except Fault DataPlaneResources :=
  match self.on_client .service_await_join with
  | .error e => .error e
  | .ok s1 =>
    match s1.on_server .service_stop with
    | .error e => .error e
    | .ok s2 => s2.on_server .service_await_join

/-- Modelled from the spec: `Service::service_start` (`internal/service.hpp`,
not part of the sources at hand), the service lifecycle glue: it runs
`do_service_start` of the derived class. -/
def service_start (self : DataPlaneResources) : Except Fault DataPlaneResources :=
  self.do_service_start

/-- Modelled from the spec: `Service::service_await_live`
(`internal/service.hpp`, not part of the sources at hand): it runs
`do_service_await_live` of the derived class. -/
def service_await_live (self : DataPlaneResources) : Except Fault DataPlaneResources :=
  self.do_service_await_live

/-- The constructor `DataPlaneResources::DataPlaneResources`
(data_plane_resources.cpp:38-56). The initialiser list constructs `m_server`
(line 50, `server` names the new object); the initialiser of `m_client`
(line 51) is commented out, so `m_client` is a default-constructed, null
`std::unique_ptr`. The body calls `service_start()` and
`service_await_live()`. -/
def constructor (server : Nat) : Except Fault DataPlaneResources :=
  let self : DataPlaneResources := { m_server := some server, m_client := none, calls := [] }
  match self.service_start with
  | .error e => .error e
  | .ok s => s.service_await_live

end DataPlaneResources

end mrc.data_plane

namespace mrc.codable

/-! ## Encoder2: basic facts -/

theorem pop_current_object_idx_ok {idx : Nat} {w w2 : LocalSerializedWrapper}
    (h : w.pop_current_object_idx idx = .ok w2) :
    w.current = idx :: w2.current ∧ w2.objects = w.objects ∧ w2.descriptors = w.descriptors := by
  unfold LocalSerializedWrapper.pop_current_object_idx at h
  split at h
  · cases h
  · split_ifs at h with ht
    cases h
    subst ht
    simp_all

theorem pop_current_object_idx_of_head {idx : Nat} {w : LocalSerializedWrapper} {rest : List Nat}
    (h : w.current = idx :: rest) :
    w.pop_current_object_idx idx = .ok { w with current := rest } := by
  simp [LocalSerializedWrapper.pop_current_object_idx, h]

theorem pop_current_object_idx_error {idx : Nat} {w : LocalSerializedWrapper} {e : CodecError}
    (h : w.pop_current_object_idx idx = .error e) : e = .UnbalancedContext := by
  unfold LocalSerializedWrapper.pop_current_object_idx at h
  split at h
  · cases h; rfl
  · split_ifs at h
    cases h; rfl

/-- The nested-call case of `detail.serialize2` is the nested `encode2`
followed by the rest of the protocol. -/
theorem detail.serialize2_encode2 (encoder : Encoder2) (U : TypeIndex)
    (member k : SerializeBody) (w : LocalSerializedWrapper) :
    detail.serialize2 encoder (.encode2 U member k) w =
      match encode2_nested U member encoder w with
      | .error e => .error e
      | .ok w3 => detail.serialize2 encoder k w3 := by
  by_cases h : U = encoder.T
  · subst h
    simp only [detail.serialize2, encode2_nested, Encoder2.serialize2, if_true]
    cases detail.serialize2 encoder member
      (w.push_current_object_idx encoder.T).2 with
    | error e => rfl
    | ok w2 =>
      cases w2.pop_current_object_idx (w.push_current_object_idx encoder.T).1 <;> rfl
  · simp only [detail.serialize2, encode2_nested, Encoder2.serialize2, if_neg h]
    cases detail.serialize2 (encoder.rebind U) member
      (w.push_current_object_idx (encoder.rebind U).T).2 with
    | error e => rfl
    | ok w2 =>
      cases w2.pop_current_object_idx (w.push_current_object_idx (encoder.rebind U).T).1 <;> rfl

/-- Inversion of a successful nested call inside `detail.serialize2`. -/
theorem detail.serialize2_encode2_ok {encoder : Encoder2} {U : TypeIndex}
    {member k : SerializeBody} {w w' : LocalSerializedWrapper}
    (h : detail.serialize2 encoder (.encode2 U member k) w = .ok w') :
    ∃ nested : Encoder2, ∃ w2 w3 : LocalSerializedWrapper, nested.T = U ∧
      detail.serialize2 nested member (w.push_current_object_idx U).2 = .ok w2 ∧
      w2.pop_current_object_idx (w.push_current_object_idx U).1 = .ok w3 ∧
      detail.serialize2 encoder k w3 = .ok w' := by
  have hT : (if U = encoder.T then encoder else encoder.rebind U).T = U := by
    split_ifs with hU
    · exact hU.symm
    · rfl
  simp only [detail.serialize2] at h
  rw [hT] at h
  refine ⟨if U = encoder.T then encoder else encoder.rebind U, ?_⟩
  split at h
  · cases h
  · rename_i w2 hw2
    split at h
    · cases h
    · rename_i w3 hw3
      exact ⟨w2, w3, hT, hw2, hw3, h⟩

/-! ## The contexts form a forest -/

theorem push_current_object_idx_forest (T : TypeIndex) {w : LocalSerializedWrapper}
    (hf : w.Forest) (hs : w.StackOrdered) :
    (w.push_current_object_idx T).2.Forest ∧ (w.push_current_object_idx T).2.StackOrdered := by
  refine ⟨?_, ?_, ?_⟩
  · intro i c hc p hp
    simp only [LocalSerializedWrapper.push_current_object_idx] at hc
    by_cases hi : i < w.objects.length
    · rw [List.getElem?_append_left hi] at hc
      exact hf i c hc p hp
    · have hi' : w.objects.length ≤ i := Nat.le_of_not_lt hi
      rw [List.getElem?_append_right hi'] at hc
      have hlt : i - w.objects.length < 1 := by
        by_contra hcon
        rw [List.getElem?_eq_none (by simpa using Nat.le_of_not_lt hcon)] at hc
        cases hc
      have h0 : i - w.objects.length = 0 := by omega
      rw [h0] at hc
      simp only [List.getElem?_cons_zero, Option.some.injEq] at hc
      subst hc
      simp only at hp
      have hmem : p ∈ w.current := List.mem_of_mem_head? hp
      have := hs.1 p hmem
      omega
  · intro x hx
    simp only [LocalSerializedWrapper.push_current_object_idx, List.mem_cons,
      List.length_append, List.length_singleton] at hx ⊢
    rcases hx with rfl | hx
    · omega
    · have := hs.1 x hx
      omega
  · simp only [LocalSerializedWrapper.push_current_object_idx, List.pairwise_cons]
    exact ⟨fun b hb => hs.1 b hb, hs.2⟩

theorem pop_current_object_idx_forest {idx : Nat} {w w2 : LocalSerializedWrapper}
    (h : w.pop_current_object_idx idx = .ok w2) (hf : w.Forest) (hs : w.StackOrdered) :
    w2.Forest ∧ w2.StackOrdered := by
  obtain ⟨hc, ho, _⟩ := pop_current_object_idx_ok h
  refine ⟨?_, ?_, ?_⟩
  · intro i c hic
    rw [ho] at hic
    exact hf i c hic
  · intro x hx
    rw [ho]
    exact hs.1 x (by rw [hc]; exact List.mem_cons_of_mem _ hx)
  · have := hs.2
    rw [hc] at this
    exact (List.pairwise_cons.mp this).2

/-- Whatever the protocol does, `detail.serialize2` keeps the contexts a
forest and the stack of open contexts ordered. -/
theorem detail.serialize2_forest (obj : SerializeBody) :
    ∀ (encoder : Encoder2) (w w' : LocalSerializedWrapper),
      detail.serialize2 encoder obj w = .ok w' → w.Forest → w.StackOrdered →
      w'.Forest ∧ w'.StackOrdered := by
  induction obj with
  | ret =>
    intro encoder w w' h hf hs
    simp only [detail.serialize2] at h
    cases h
    exact ⟨hf, hs⟩
  | write_descriptor view kind k ih =>
    intro encoder w w' h hf hs
    simp only [detail.serialize2] at h
    exact ih encoder _ w' h hf hs
  | add_meta_data meta_data k ih =>
    intro encoder w w' h hf hs
    simp only [detail.serialize2] at h
    exact ih encoder _ w' h hf hs
  | encode2 U member k ihm ihk =>
    intro encoder w w' h hf hs
    obtain ⟨nested, w2, w3, _, h2, h3, h4⟩ := detail.serialize2_encode2_ok h
    obtain ⟨hf1, hs1⟩ := push_current_object_idx_forest U hf hs
    obtain ⟨hf2, hs2⟩ := ihm nested _ w2 h2 hf1 hs1
    obtain ⟨hf3, hs3⟩ := pop_current_object_idx_forest h3 hf2 hs2
    exact ihk encoder w3 w' h4 hf3 hs3
  | push_current_object_idx U k ih =>
    intro encoder w w' h hf hs
    simp only [detail.serialize2] at h
    obtain ⟨hf1, hs1⟩ := push_current_object_idx_forest U hf hs
    exact ih _ encoder _ w' h hf1 hs1
  | pop_current_object_idx object_idx k ih =>
    intro encoder w w' h hf hs
    simp only [detail.serialize2] at h
    split at h
    · cases h
    · rename_i w2 hw2
      obtain ⟨hf2, hs2⟩ := pop_current_object_idx_forest hw2 hf hs
      exact ih encoder w2 w' h hf2 hs2

end mrc.codable

namespace mrc.codable

/-- A protocol that only makes nested `encode2` calls (and writes) always
runs to completion, leaves the stack of open contexts as it found it, and adds
one context per nested call, each with a parent. -/
theorem detail.serialize2_nested_only (obj : SerializeBody) :
    obj.NestedOnly → ∀ (encoder : Encoder2) (w : LocalSerializedWrapper), w.current ≠ [] →
      ∃ w' : LocalSerializedWrapper, detail.serialize2 encoder obj w = .ok w' ∧
        w'.current = w.current ∧
        ∃ added : List ObjectContext, w'.objects = w.objects ++ added ∧
          added.length = obj.nested_calls ∧
          ∀ c ∈ added, c.parent_object_idx ≠ none := by
  induction obj with
  | ret =>
    intro _ encoder w _
    exact ⟨w, rfl, rfl, [], by simp, rfl, by simp⟩
  | write_descriptor view kind k ih =>
    intro hn encoder w hw
    obtain ⟨w', h1, h2, added, h3, h4, h5⟩ :=
      ih hn encoder (encoder.base.write_descriptor view kind w).2 hw
    exact ⟨w', by simpa only [detail.serialize2] using h1, h2, added, h3, h4, h5⟩
  | add_meta_data meta_data k ih =>
    intro hn encoder w hw
    obtain ⟨w', h1, h2, added, h3, h4, h5⟩ :=
      ih hn encoder (encoder.base.add_meta_data meta_data w).2 hw
    exact ⟨w', by simpa only [detail.serialize2] using h1, h2, added, h3, h4, h5⟩
  | encode2 U member k ihm ihk =>
    intro hn encoder w hw
    have hT : (if U = encoder.T then encoder else encoder.rebind U).T = U := by
      split_ifs with hU
      · exact hU.symm
      · rfl
    obtain ⟨w2, h1, h2, added2, h3, h4, h5⟩ :=
      ihm hn.1 (if U = encoder.T then encoder else encoder.rebind U)
        (w.push_current_object_idx U).2 (by simp [LocalSerializedWrapper.push_current_object_idx])
    have hpop : w2.pop_current_object_idx (w.push_current_object_idx U).1 =
        .ok { w2 with current := w.current } :=
      pop_current_object_idx_of_head (by rw [h2]; rfl)
    obtain ⟨w', k1, k2, added3, k3, k4, k5⟩ :=
      ihk hn.2 encoder { w2 with current := w.current } hw
    refine ⟨w', ?_, k2, ⟨U, w.current.head?, w.descriptors.length⟩ :: (added2 ++ added3), ?_, ?_, ?_⟩
    · simp only [detail.serialize2, hT, h1, hpop, k1]
    · rw [k3]
      simp only [h3, LocalSerializedWrapper.push_current_object_idx, List.append_assoc,
        List.singleton_append, List.cons_append, List.nil_append]
    · simp only [List.length_cons, List.length_append, h4, k4, SerializeBody.nested_calls]
      omega
    · intro c hc
      simp only [List.mem_cons, List.mem_append] at hc
      rcases hc with rfl | hc | hc
      · cases hcur : w.current with
        | nil => exact absurd hcur hw
        | cons a rest => simp
      · exact h5 c hc
      · exact k5 c hc
  | push_current_object_idx U k _ =>
    intro hn
    exact hn.elim
  | pop_current_object_idx object_idx k _ =>
    intro hn
    exact hn.elim

theorem LocalSerializedWrapper.empty_forest :
    LocalSerializedWrapper.empty.Forest ∧ LocalSerializedWrapper.empty.StackOrdered := by
  refine ⟨?_, ?_, ?_⟩
  · intro i c hc
    simp [LocalSerializedWrapper.empty] at hc
  · intro x hx
    simp [LocalSerializedWrapper.empty] at hx
  · simp [LocalSerializedWrapper.empty]

/-- The top-level `encode2` is `serialize2` on a fresh wrapper. -/
theorem encode2_eq (T : TypeIndex) (obj : SerializeBody) (block_provider : Nat) :
    encode2 T obj block_provider =
      match detail.serialize2 ⟨T, ⟨top_level_object, block_provider⟩⟩ obj
          (LocalSerializedWrapper.empty.push_current_object_idx T).2 with
      | .error e => .error e
      | .ok w2 => w2.pop_current_object_idx 0 := by
  simp only [encode2, encode2_nested, Encoder2.serialize2, if_true]
  rfl

/-- Whatever the protocol does, the contexts of an object returned by the
top-level `encode2` form a forest. -/
theorem encode2_forest {T : TypeIndex} {obj : SerializeBody} {block_provider : Nat}
    {w : LocalSerializedWrapper} (h : encode2 T obj block_provider = .ok w) :
    w.Forest ∧ w.StackOrdered := by
  rw [encode2_eq] at h
  split at h
  · cases h
  · rename_i w2 hw2
    obtain ⟨hf0, hs0⟩ := LocalSerializedWrapper.empty_forest
    obtain ⟨hf1, hs1⟩ := push_current_object_idx_forest T hf0 hs0
    obtain ⟨hf2, hs2⟩ := detail.serialize2_forest obj _ _ _ hw2 hf1 hs1
    exact pop_current_object_idx_forest h hf2 hs2

/-- The top-level `encode2` of a protocol that does not touch the context
stack itself returns an encoded object. -/
theorem encode2_nested_only (T : TypeIndex) (obj : SerializeBody)
    (block_provider : Nat) (h : obj.NestedOnly) :
    ∃ w : LocalSerializedWrapper, encode2 T obj block_provider = .ok w := by
  obtain ⟨w2, h1, h2, _⟩ :=
    detail.serialize2_nested_only obj h ⟨T, ⟨top_level_object, block_provider⟩⟩
      (LocalSerializedWrapper.empty.push_current_object_idx T).2
      (by simp [LocalSerializedWrapper.push_current_object_idx])
  refine ⟨{ w2 with current := [] }, ?_⟩
  rw [encode2_eq, h1]
  exact pop_current_object_idx_of_head (by rw [h2]; rfl)

/-- C2. For a value whose protocol performs a finite tree of nested `encode2`
calls, the top-level `encode2` returns an encoded object whose contexts form a
forest: there is one context per `serialize2` call (the indices `0 .. n` are
assigned densely, in push order), context 0 is the root pushed for the value
itself before its protocol ran, and every other context has a parent whose
index is strictly less than its own. -/
theorem encode2_contexts_form_forest (T : TypeIndex) (obj : SerializeBody)
    (block_provider : Nat) (h : obj.NestedOnly) :
    ∃ w : LocalSerializedWrapper, encode2 T obj block_provider = .ok w ∧
      w.current = [] ∧
      w.objects.length = 1 + obj.nested_calls ∧
      w.objects[0]? = some ⟨T, none, 0⟩ ∧
      ∀ (i : Nat) (c : ObjectContext), w.objects[i]? = some c → 0 < i →
        ∃ p : Nat, c.parent_object_idx = some p ∧ p < i := by
  obtain ⟨w2, h1, h2, added, h3, h4, h5⟩ :=
    detail.serialize2_nested_only obj h ⟨T, ⟨top_level_object, block_provider⟩⟩
      (LocalSerializedWrapper.empty.push_current_object_idx T).2
      (by simp [LocalSerializedWrapper.push_current_object_idx])
  have hpop : w2.pop_current_object_idx 0 = .ok { w2 with current := [] } :=
    pop_current_object_idx_of_head (by rw [h2]; rfl)
  have henc : encode2 T obj block_provider = .ok { w2 with current := [] } := by
    rw [encode2_eq, h1]
    exact hpop
  have hobj : w2.objects = ⟨T, none, 0⟩ :: added := by
    rw [h3]
    rfl
  refine ⟨{ w2 with current := [] }, henc, rfl, ?_, ?_, ?_⟩
  · simp only [hobj, List.length_cons, h4]
    omega
  · simp only [hobj, List.getElem?_cons_zero]
  · intro i c hc hi
    have hmem : c ∈ added := by
      simp only [hobj] at hc
      obtain ⟨j, rfl⟩ : ∃ j, i = j + 1 := ⟨i - 1, by omega⟩
      rw [List.getElem?_cons_succ] at hc
      exact List.mem_iff_getElem?.mpr ⟨j, hc⟩
    cases hp : c.parent_object_idx with
    | none => exact absurd hp (h5 c hmem)
    | some p => exact ⟨p, rfl, (encode2_forest henc).1 i c hc p hp⟩

/-- Witness for C2: a value with two members, the first of which has a member
of its own. -/
theorem encode2_contexts_form_forest_witness :
    (SerializeBody.encode2 2 (.encode2 3 (.write_descriptor [1] .Eager .ret) .ret)
        (.encode2 3 (.write_descriptor [2] .Eager .ret) .ret)).NestedOnly ∧
    ∃ w : LocalSerializedWrapper,
      encode2 1 (.encode2 2 (.encode2 3 (.write_descriptor [1] .Eager .ret) .ret)
        (.encode2 3 (.write_descriptor [2] .Eager .ret) .ret)) 0 = .ok w ∧
      w.current = [] ∧
      w.objects.length = 1 + (SerializeBody.encode2 2
        (.encode2 3 (.write_descriptor [1] .Eager .ret) .ret)
        (.encode2 3 (.write_descriptor [2] .Eager .ret) .ret)).nested_calls ∧
      w.objects[0]? = some ⟨1, none, 0⟩ ∧
      ∀ (i : Nat) (c : ObjectContext), w.objects[i]? = some c → 0 < i →
        ∃ p : Nat, c.parent_object_idx = some p ∧ p < i :=
  ⟨⟨⟨trivial, trivial⟩, trivial, trivial⟩,
    encode2_contexts_form_forest 1 _ 0 ⟨⟨trivial, trivial⟩, trivial, trivial⟩⟩

end mrc.codable

namespace mrc.codable

/-! ## Balanced contexts -/

/-- C3. `Encoder<T>::serialize` (over any storage whose `push_context` puts
the handle it returns on top of the context stack and whose `pop_context`
removes a matching top) and `Encoder2<T>::serialize2` open exactly one context
fingerprinted with `typeid(T)` before the protocol runs and close it with the
very handle the push returned. Whenever the protocol leaves the context stack
as it found it, that handle is the top of the stack when it is popped, the pop
succeeds, and the stack after `serialize` equals the stack before it. -/
theorem serialize_opens_and_closes_one_context {S : Type}
    (m_storage : IEncodableStorage S) (stack : S → List Nat)
    (hpush : ∀ (T : TypeIndex) (s : S),
      stack (m_storage.push_context T s).2 = (m_storage.push_context T s).1 :: stack s)
    (hpop : ∀ (handle : Nat) (s : S) (rest : List Nat), stack s = handle :: rest →
      ∃ s' : S, m_storage.pop_context handle s = .ok s' ∧ stack s' = rest)
    (encoder : Encoder) (protocol : Encoder → S → Except CodecError S) (s s2 : S)
    (hrun : protocol encoder (m_storage.push_context encoder.T s).2 = .ok s2)
    (hbal : stack s2 = stack (m_storage.push_context encoder.T s).2)
    (encoder2 : Encoder2) (obj : SerializeBody) (w w2 : LocalSerializedWrapper)
    (hrun2 : detail.serialize2 encoder2 obj (w.push_current_object_idx encoder2.T).2 = .ok w2)
    (hbal2 : w2.current = (w.push_current_object_idx encoder2.T).2.current) :
    (encoder.serialize m_storage protocol s =
        m_storage.pop_context (m_storage.push_context encoder.T s).1 s2 ∧
      (stack s2).head? = some (m_storage.push_context encoder.T s).1 ∧
      ∃ s3 : S, encoder.serialize m_storage protocol s = .ok s3 ∧ stack s3 = stack s) ∧
    ((w.push_current_object_idx encoder2.T).2.objects =
        w.objects ++ [⟨encoder2.T, w.current.head?, w.descriptors.length⟩] ∧
      (w.push_current_object_idx encoder2.T).1 = w.objects.length ∧
      encoder2.serialize2 obj w =
        w2.pop_current_object_idx (w.push_current_object_idx encoder2.T).1 ∧
      w2.current.head? = some (w.push_current_object_idx encoder2.T).1 ∧
      ∃ w3 : LocalSerializedWrapper, encoder2.serialize2 obj w = .ok w3 ∧
        w3.current = w.current ∧ w3.objects = w2.objects ∧ w3.descriptors = w2.descriptors) := by
  have hser : encoder.serialize m_storage protocol s =
      m_storage.pop_context (m_storage.push_context encoder.T s).1 s2 := by
    simp only [Encoder.serialize, hrun]
  have hser2 : encoder2.serialize2 obj w =
      w2.pop_current_object_idx (w.push_current_object_idx encoder2.T).1 := by
    simp only [Encoder2.serialize2, hrun2]
  have htop : stack s2 = (m_storage.push_context encoder.T s).1 :: stack s := by
    rw [hbal]
    exact hpush encoder.T s
  have htop2 : w2.current = (w.push_current_object_idx encoder2.T).1 :: w.current := by
    rw [hbal2]
    rfl
  refine ⟨⟨hser, ?_, ?_⟩, rfl, rfl, hser2, ?_, ?_⟩
  · rw [htop]
    rfl
  · obtain ⟨s3, h3, hst⟩ := hpop _ s2 _ htop
    exact ⟨s3, by rw [hser]; exact h3, hst⟩
  · rw [htop2]
    rfl
  · exact ⟨{ w2 with current := w.current },
      by rw [hser2]; exact pop_current_object_idx_of_head htop2, rfl, rfl, rfl⟩

/-- Witness for C3: an `Encoder<T>` over the reference storage and an
`Encoder2<T>`, on an object that already has one open context, with a protocol
that writes one descriptor. -/
theorem serialize_opens_and_closes_one_context_witness :
    (∃ s3 : LocalSerializedWrapper,
      Encoder.serialize LocalSerializedWrapper.storage ⟨7, 0⟩
        (fun _ s => .ok { s with descriptors := s.descriptors ++ [⟨.Eager, [1]⟩] })
        ⟨[], [⟨1, none, 0⟩], [0]⟩ = .ok s3 ∧ s3.current = [0]) ∧
    (∃ w3 : LocalSerializedWrapper,
      Encoder2.serialize2 ⟨7, ⟨0, 0⟩⟩ (.write_descriptor [1] .Eager .ret)
        ⟨[], [⟨1, none, 0⟩], [0]⟩ = .ok w3 ∧ w3.current = [0]) :=
  have h := serialize_opens_and_closes_one_context LocalSerializedWrapper.storage
    (fun w => w.current) (fun _ _ => rfl)
    (fun _ w rest hw =>
      ⟨{ w with current := rest }, pop_current_object_idx_of_head hw, rfl⟩)
    ⟨7, 0⟩ (fun _ s => .ok { s with descriptors := s.descriptors ++ [⟨.Eager, [1]⟩] })
    ⟨[], [⟨1, none, 0⟩], [0]⟩ ⟨[⟨.Eager, [1]⟩], [⟨1, none, 0⟩, ⟨7, some 0, 0⟩], [1, 0]⟩
    rfl rfl
    ⟨7, ⟨0, 0⟩⟩ (.write_descriptor [1] .Eager .ret)
    ⟨[], [⟨1, none, 0⟩], [0]⟩ ⟨[⟨.Eager, [1]⟩], [⟨1, none, 0⟩, ⟨7, some 0, 0⟩], [1, 0]⟩
    rfl rfl
  ⟨h.1.2.2, h.2.2.2.2.2.imp fun _ hw => ⟨hw.1, hw.2.1⟩⟩

/-- C4. When the protocol of a value returns with the context stack not as it
found it (it pushed a context and did not pop it), the top-level `encode2`
fails with `UnbalancedContext` and returns no encoded object; and whenever the
top-level `encode2` does return an encoded object, its context stack is
empty. -/
theorem encode2_unbalanced_context (T : TypeIndex) (obj : SerializeBody)
    (block_provider : Nat) (w2 : LocalSerializedWrapper)
    (hrun : detail.serialize2 ⟨T, ⟨top_level_object, block_provider⟩⟩ obj
      (LocalSerializedWrapper.empty.push_current_object_idx T).2 = .ok w2)
    (hopen : w2.current ≠ (LocalSerializedWrapper.empty.push_current_object_idx T).2.current) :
    encode2 T obj block_provider = .error .UnbalancedContext ∧
    (∀ w : LocalSerializedWrapper, encode2 T obj block_provider ≠ .ok w) ∧
    (∀ (obj' : SerializeBody) (w : LocalSerializedWrapper),
      encode2 T obj' block_provider = .ok w → w.current = []) := by
  have hret : ∀ (obj' : SerializeBody) (w : LocalSerializedWrapper),
      encode2 T obj' block_provider = .ok w → w.current = [] ∧
        ∀ w2', detail.serialize2 ⟨T, ⟨top_level_object, block_provider⟩⟩ obj'
          (LocalSerializedWrapper.empty.push_current_object_idx T).2 = .ok w2' →
          w2'.current = [0] := by
    intro obj' w h
    have hw := h
    rw [encode2_eq] at h
    split at h
    · cases h
    · rename_i w2' hw2'
      obtain ⟨hf0, hs0⟩ := LocalSerializedWrapper.empty_forest
      obtain ⟨hf1, hs1⟩ := push_current_object_idx_forest T hf0 hs0
      obtain ⟨_, hs2⟩ := detail.serialize2_forest obj' _ _ _ hw2' hf1 hs1
      obtain ⟨hc, _, _⟩ := pop_current_object_idx_ok h
      have hpw := hs2.2
      rw [hc] at hpw
      have hnil : w.current = [] := by
        cases hcur : w.current with
        | nil => rfl
        | cons a rest =>
          have := (List.pairwise_cons.mp hpw).1 a (by rw [hcur]; exact List.mem_cons_self _ _)
          omega
      refine ⟨hnil, ?_⟩
      intro w2'' hw2''
      rw [hw2'] at hw2''
      cases hw2''
      rw [hc, hnil]
  have hno : ∀ w : LocalSerializedWrapper, encode2 T obj block_provider ≠ .ok w := by
    intro w hw
    exact hopen ((hret obj w hw).2 w2 hrun)
  refine ⟨?_, hno, fun obj' w h => (hret obj' w h).1⟩
  cases henc : encode2 T obj block_provider with
  | ok w => exact absurd henc (hno w)
  | error e =>
    rw [encode2_eq, hrun] at henc
    rw [pop_current_object_idx_error henc]

/-- Witness for C4: the protocol pushes a context for type 9 and returns. -/
theorem encode2_unbalanced_context_witness :
    encode2 1 (.push_current_object_idx 9 (fun _ => .ret)) 0 = .error .UnbalancedContext ∧
    (∀ w : LocalSerializedWrapper,
      encode2 1 (.push_current_object_idx 9 (fun _ => .ret)) 0 ≠ .ok w) ∧
    (∀ (obj' : SerializeBody) (w : LocalSerializedWrapper),
      encode2 1 obj' 0 = .ok w → w.current = []) :=
  encode2_unbalanced_context 1 (.push_current_object_idx 9 (fun _ => .ret)) 0
    ⟨[], [⟨1, none, 0⟩, ⟨9, some 0, 0⟩], [1, 0]⟩ rfl (by decide)

end mrc.codable

namespace mrc.codable

/-! ## Round trip -/

/-- The nested-call case of `detail.deserialize2` is the nested `decode2`
followed by the rest of the protocol. -/
theorem detail.deserialize2_decode2 {V : Type} (decoder : Decoder2) (U : TypeIndex)
    (member : DeserializeBody V) (k : V → DeserializeBody V) (h : DescriptorObjectHandler) :
    detail.deserialize2 decoder (.decode2 U member k) h =
      match decode2_nested U member decoder h with
      | .error e => .error e
      | .ok (value, h3) => detail.deserialize2 decoder (k value) h3 := by
  by_cases hU : U = decoder.T
  · subst hU
    simp only [detail.deserialize2, decode2_nested, Decoder2.deserialize, if_true]
    cases detail.deserialize2 decoder member h with
    | error e => rfl
    | ok r => rfl
  · simp only [detail.deserialize2, decode2_nested, Decoder2.deserialize, if_neg hU]
    cases detail.deserialize2 (decoder.rebind U) member h with
    | error e => rfl
    | ok r => rfl

end mrc.codable

namespace srf.internal.remote_descriptor

namespace Manager

/-! ## Token counting -/

theorem size_erase_of_lookup {s : AList (fun _ : Nat => Storage)} {id : Nat} {stored : Storage}
    (h : s.lookup id = some stored) : (s.erase id).entries.length + 1 = s.entries.length := by
  have hmem : id ∈ s.keys := by
    rw [← AList.mem_keys, ← AList.lookup_isSome, h]
    rfl
  have h1 : (s.erase id).keys.length + 1 = s.keys.length := by
    rw [AList.keys_erase, List.length_erase_of_mem hmem]
    have : 0 < s.keys.length := List.length_pos_of_mem hmem
    omega
  simpa [AList.keys, List.keys] using h1

theorem decrement_tokens_other (m : Manager) {id object_id : Nat} (c : Nat)
    (hne : id ≠ object_id) :
    (m.decrement_tokens id c).2.m_stored_objects.lookup object_id =
      m.m_stored_objects.lookup object_id := by
  unfold decrement_tokens
  split
  · rfl
  · dsimp only
    split_ifs
    · exact AList.lookup_erase_ne (Ne.symm hne)
    · exact AList.lookup_erase_ne (Ne.symm hne)
    · exact AList.lookup_insert_ne (Ne.symm hne)

theorem decrement_tokens_keeps {m : Manager} {object_id : Nat} (c : Nat) {stored : Storage}
    (h : m.m_stored_objects.lookup object_id = some stored) (hc : c < stored.tokens) :
    (m.decrement_tokens object_id c).1 = .Decremented ∧
    (m.decrement_tokens object_id c).2.m_stored_objects.lookup object_id =
      some { stored with tokens := stored.tokens - c } := by
  unfold decrement_tokens
  rw [h]
  dsimp only
  have h1 : ¬ ((stored.tokens : Int) - (c : Int) = 0) := by omega
  have h2 : ¬ ((stored.tokens : Int) - (c : Int) < 0) := by omega
  rw [if_neg h1, if_neg h2]
  refine ⟨rfl, ?_⟩
  rw [AList.lookup_insert]
  congr 2
  omega

theorem decrement_tokens_final {m : Manager} {object_id : Nat} {stored : Storage}
    (h : m.m_stored_objects.lookup object_id = some stored) :
    (m.decrement_tokens object_id stored.tokens).1 = .Erased ∧
    (m.decrement_tokens object_id stored.tokens).2.size + 1 = m.size ∧
    (m.decrement_tokens object_id stored.tokens).2.encoding object_id = .error .NotFound := by
  unfold decrement_tokens
  rw [h]
  dsimp only
  rw [if_pos (by omega)]
  refine ⟨rfl, size_erase_of_lookup h, ?_⟩
  simp only [encoding, AList.lookup_erase]

theorem process_decrements_append (m : Manager) (a b : List (Nat × Nat)) :
    m.process_decrements (a ++ b) =
      ((m.process_decrements a).1 ++ ((m.process_decrements a).2.process_decrements b).1,
        ((m.process_decrements a).2.process_decrements b).2) := by
  induction a generalizing m with
  | nil => rfl
  | cons x rest ih =>
    obtain ⟨id, c⟩ := x
    show process_decrements m ((id, c) :: (rest ++ b)) = _
    simp only [process_decrements, ih, List.cons_append]

/-- While the decrements for an id total less than its token count, the
object stays stored, with the remaining tokens, and is never erased. -/
theorem process_decrements_keeps (object_id : Nat) (msgs : List (Nat × Nat)) :
    ∀ (m : Manager) (stored : Storage), m.m_stored_objects.lookup object_id = some stored →
      decrement_total object_id msgs < stored.tokens →
      (m.process_decrements msgs).2.m_stored_objects.lookup object_id =
        some { stored with tokens := stored.tokens - decrement_total object_id msgs } ∧
      (object_id, DecrementOutcome.Erased) ∉ (m.process_decrements msgs).1 := by
  induction msgs with
  | nil =>
    intro m stored h _
    exact ⟨by simpa [process_decrements, decrement_total] using h, by simp [process_decrements]⟩
  | cons x rest ih =>
    intro m stored h hlt
    obtain ⟨id, c⟩ := x
    simp only [decrement_total] at hlt
    by_cases hid : id = object_id
    · subst hid
      rw [if_pos rfl] at hlt
      obtain ⟨h1, h2⟩ := decrement_tokens_keeps c h (by omega)
      obtain ⟨k1, k2⟩ := ih (m.decrement_tokens id c).2 _ h2 (by simp only; omega)
      refine ⟨?_, ?_⟩
      · simp only [process_decrements, decrement_total, if_true]
        rw [k1]
        congr 2
        simp only
        omega
      · simp only [process_decrements, List.mem_cons, not_or]
        refine ⟨?_, k2⟩
        rw [h1]
        simp
    · rw [if_neg hid] at hlt
      have h2 := (decrement_tokens_other m c hid).trans h
      obtain ⟨k1, k2⟩ := ih (m.decrement_tokens id c).2 stored h2 (by omega)
      refine ⟨?_, ?_⟩
      · simp only [process_decrements, decrement_total, if_neg hid, Nat.zero_add]
        exact k1
      · simp only [process_decrements, List.mem_cons, not_or]
        refine ⟨?_, k2⟩
        intro hcon
        exact hid (Prod.mk.inj hcon).1.symm

theorem decrement_total_take_le (object_id : Nat) (msgs : List (Nat × Nat)) (k : Nat) :
    decrement_total object_id (msgs.take k) ≤ decrement_total object_id msgs := by
  induction msgs generalizing k with
  | nil => simp [decrement_total]
  | cons x rest ih =>
    obtain ⟨id, c⟩ := x
    cases k with
    | zero => simp [decrement_total]
    | succ k =>
      simp only [List.take_succ_cons, decrement_total]
      have := ih k
      omega

/-- C5. An object registered with `n` tokens stays in `m_stored_objects`
(and `encoding` finds it) after every prefix of a sequence of decrement
messages whose decrements for its id total less than `n`; when a further
decrement brings the total to exactly `n`, the object is erased exactly once:
among all calls exactly one erased it, `size()` drops by one, and `encoding`
no longer finds it. -/
theorem decrement_tokens_erases_at_zero (m m1 : Manager) (object : EncodedStorage) (n : Nat)
    (rd : RemoteDescriptor) (hreg : m.register_encoded_object object n = .ok (rd, m1))
    (msgs : List (Nat × Nat)) (c : Nat)
    (hlt : decrement_total rd.object_id msgs < n)
    (hsum : decrement_total rd.object_id msgs + c = n) :
    1 ≤ n ∧ rd.tokens = n ∧
    (∀ k : Nat, (m1.process_decrements (msgs.take k)).2.encoding rd.object_id = .ok object) ∧
    (m1.process_decrements (msgs ++ [(rd.object_id, c)])).1.count
      (rd.object_id, DecrementOutcome.Erased) = 1 ∧
    (m1.process_decrements (msgs ++ [(rd.object_id, c)])).2.size + 1 =
      (m1.process_decrements msgs).2.size ∧
    (m1.process_decrements (msgs ++ [(rd.object_id, c)])).2.encoding rd.object_id =
      .error .NotFound := by
  unfold register_encoded_object at hreg
  split_ifs at hreg with h0
  simp only [Except.ok.injEq, Prod.mk.injEq] at hreg
  obtain ⟨hrd, hm1⟩ := hreg
  subst hrd hm1
  simp only at hlt hsum ⊢
  have hlook : ({ m with
      m_stored_objects := m.m_stored_objects.insert m.next_object_id ⟨object, n⟩
      next_object_id := m.next_object_id + 1 } : Manager).m_stored_objects.lookup
        m.next_object_id = some ⟨object, n⟩ := AList.lookup_insert _
  refine ⟨by omega, trivial, ?_, ?_⟩
  · intro k
    have hk := decrement_total_take_le m.next_object_id msgs k
    obtain ⟨k1, _⟩ := process_decrements_keeps m.next_object_id (msgs.take k) _ _ hlook
      (by simp only; omega)
    simp only [encoding, k1]
  · obtain ⟨k1, k2⟩ := process_decrements_keeps m.next_object_id msgs _ _ hlook hlt
    have hc : c = n - decrement_total m.next_object_id msgs := by omega
    obtain ⟨f1, f2, f3⟩ := decrement_tokens_final k1
    simp only at f1 f2 f3
    rw [← hc] at f1 f2 f3
    rw [process_decrements_append]
    simp only [process_decrements, List.append_nil]
    refine ⟨?_, f2, f3⟩
    rw [List.count_append, List.count_eq_zero_of_not_mem k2, f1]
    simp

/-- Witness for C5: token fan-out. An object published with three tokens on
an empty manager; three handles release one token each. -/
theorem decrement_tokens_erases_at_zero_witness :
    1 ≤ 3 ∧ (3 : Nat) = 3 ∧
    (∀ k : Nat, ((⟨(∅ : AList (fun _ : Nat => Storage)).insert 0 ⟨[], 3⟩, 0, 1⟩ :
      Manager).process_decrements ([(0, 1), (0, 1)].take k)).2.encoding 0 = .ok []) ∧
    ((⟨(∅ : AList (fun _ : Nat => Storage)).insert 0 ⟨[], 3⟩, 0, 1⟩ :
      Manager).process_decrements ([(0, 1), (0, 1)] ++ [(0, 1)])).1.count
        (0, DecrementOutcome.Erased) = 1 ∧
    ((⟨(∅ : AList (fun _ : Nat => Storage)).insert 0 ⟨[], 3⟩, 0, 1⟩ :
      Manager).process_decrements ([(0, 1), (0, 1)] ++ [(0, 1)])).2.size + 1 =
      ((⟨(∅ : AList (fun _ : Nat => Storage)).insert 0 ⟨[], 3⟩, 0, 1⟩ :
        Manager).process_decrements [(0, 1), (0, 1)]).2.size ∧
    ((⟨(∅ : AList (fun _ : Nat => Storage)).insert 0 ⟨[], 3⟩, 0, 1⟩ :
      Manager).process_decrements ([(0, 1), (0, 1)] ++ [(0, 1)])).2.encoding 0 =
      .error .NotFound :=
  decrement_tokens_erases_at_zero ⟨∅, 0, 0⟩ _ [] 3 ⟨0, 0, 3⟩ rfl [(0, 1), (0, 1)] 1
    (by decide) (by decide)

end Manager

end srf.internal.remote_descriptor

namespace mrc.data_plane

/-! ## Request ownership in `send_async` and `receive_async` -/

theorem modify_append_length {α : Type} (f : α → α) (l : List α) (a : α) :
    (l ++ [a]).modify f l.length = l ++ [f a] := by
  induction l with
  | nil => rfl
  | cons x rest ih => simp [List.modify_succ_cons, ih]

theorem set_append_length {α : Type} (l : List α) (a b : α) :
    (l ++ [a]).set l.length b = l ++ [b] := by
  induction l with
  | nil => rfl
  | cons x rest ih => simp [ih]

/-- The state in which `send_async` calls the fabric: the two `CHECK`s on the
fresh request hold, a new holder owns the new request next to the local
handle, the request is already `Running`, and the user data is the holder. -/
theorem send_async_prepare_eq (endpoint addr bytes tag : Nat) (w : World) :
    send_async_prepare endpoint addr bytes tag w =
      some (w.holders.length, w.requests.length,
        ⟨.send2, endpoint, addr, bytes, tag, 0, .heap w.holders.length⟩,
        { requests := w.requests ++ [⟨⟨.null, .Running⟩, 2⟩]
          holders := w.holders ++ [some w.requests.length]
          posted := w.posted }) := by
  simp [send_async_prepare, World.new_holder, World.make_shared, World.assign_holder,
    World.get, World.update, modify_append_length, set_append_length]

/-- The state in which `receive_async` calls the fabric: as for `send_async`,
but the user data is the address of the local variable `request`. -/
theorem receive_async_prepare_eq (worker addr bytes tag mask : Nat) (w : World) :
    receive_async_prepare worker addr bytes tag mask w =
      some (w.holders.length, w.requests.length,
        ⟨.recv2, worker, addr, bytes, tag, mask, .local_variable "request"⟩,
        { requests := w.requests ++ [⟨⟨.null, .Running⟩, 2⟩]
          holders := w.holders ++ [some w.requests.length]
          posted := w.posted }) := by
  simp [receive_async_prepare, World.new_holder, World.make_shared, World.assign_holder,
    World.get, World.update, modify_append_length, set_append_length]

/-- C9. Every call of `send_async` creates a holder on the heap that owns a
strong reference to the new request and posts the send with that holder as
user data. When the fabric accepts the operation, the request returned to the
caller is that very request; it then has two owners (the holder and the
returned handle), so after the caller drops the handle it is still referenced
(use count 1) by the holder, which nothing in `send_async` releases. -/
theorem send_async_keeps_request_referenced (ucp_tag_send_nbx : FabricOp → ucs_status_ptr)
    (endpoint addr bytes tag : Nat) (w : World)
    (haccept : ∀ op : FabricOp,
      ucp_tag_send_nbx op ≠ .null ∧ UCS_PTR_IS_ERR (ucp_tag_send_nbx op) = false) :
    ∃ (request_ptr request : Nat) (send_params : FabricOp) (w4 w' : World),
      send_async_prepare endpoint addr bytes tag w = some (request_ptr, request, send_params, w4) ∧
      w.holders.length ≤ request_ptr ∧ w.requests.length ≤ request ∧
      send_params.user_data = .heap request_ptr ∧
      w4.holders[request_ptr]? = some (some request) ∧
      send_async ucp_tag_send_nbx endpoint addr bytes tag w = .ok (request, w') ∧
      w'.posted = w.posted ++ [send_params] ∧
      w'.holders[request_ptr]? = some (some request) ∧
      w'.use_count request = 2 ∧
      (w'.drop_handle request).use_count request = 1 ∧
      (w'.drop_handle request).holders[request_ptr]? = some (some request) := by
  obtain ⟨h1, h2⟩ := haccept ⟨.send2, endpoint, addr, bytes, tag, 0, .heap w.holders.length⟩
  refine ⟨w.holders.length, w.requests.length,
    ⟨.send2, endpoint, addr, bytes, tag, 0, .heap w.holders.length⟩,
    { requests := w.requests ++ [⟨⟨.null, .Running⟩, 2⟩]
      holders := w.holders ++ [some w.requests.length]
      posted := w.posted },
    { requests := w.requests ++ [⟨⟨ucp_tag_send_nbx
        ⟨.send2, endpoint, addr, bytes, tag, 0, .heap w.holders.length⟩, .Running⟩, 2⟩]
      holders := w.holders ++ [some w.requests.length]
      posted := w.posted ++ [⟨.send2, endpoint, addr, bytes, tag, 0, .heap w.holders.length⟩] },
    send_async_prepare_eq _ _ _ _ w, le_refl _, le_refl _, rfl, by simp, ?_, rfl, by simp, ?_, ?_,
    by simp [World.drop_handle]⟩
  · simp only [send_async, send_async_prepare_eq, if_neg h1, h2]
    simp [World.update, modify_append_length]
  · simp [World.use_count]
  · simp [World.use_count, World.drop_handle, modify_append_length]

/-- Witness for C9: the first send of a process, accepted by the fabric. -/
theorem send_async_keeps_request_referenced_witness :
    ∃ (request_ptr request : Nat) (send_params : FabricOp) (w4 w' : World),
      send_async_prepare 1 4096 8 5 ⟨[], [], []⟩ = some (request_ptr, request, send_params, w4) ∧
      ([] : List (Option Nat)).length ≤ request_ptr ∧
      ([] : List SharedRequest).length ≤ request ∧
      send_params.user_data = .heap request_ptr ∧
      w4.holders[request_ptr]? = some (some request) ∧
      send_async (fun _ => .request 77) 1 4096 8 5 ⟨[], [], []⟩ = .ok (request, w') ∧
      w'.posted = [] ++ [send_params] ∧
      w'.holders[request_ptr]? = some (some request) ∧
      w'.use_count request = 2 ∧
      (w'.drop_handle request).use_count request = 1 ∧
      (w'.drop_handle request).holders[request_ptr]? = some (some request) :=
  send_async_keeps_request_referenced (fun _ => .request 77) 1 4096 8 5 ⟨[], [], []⟩
    (fun _ => ⟨fun h => ucs_status_ptr.noConfusion h, rfl⟩)

/-- C10 (the code at the failing input). `receive_async` on a fresh process,
accepted by the fabric: the operation it posts carries the address of the
local variable `request` as user data, not the holder (heap object 0) that
owns the strong reference. -/
theorem receive_async_user_data_is_local :
    receive_async (fun _ => .request 77) 0 4096 8 5 0 ⟨[], [], []⟩ =
      .ok (0, ⟨[⟨⟨.request 77, .Running⟩, 2⟩], [some 0],
        [⟨.recv2, 0, 4096, 8, 5, 0, .local_variable "request"⟩]⟩) ∧
    UserData.local_variable "request" ≠ UserData.heap 0 :=
  ⟨rfl, by decide⟩

end mrc.data_plane

namespace mrc.codable

/-! ## Meta data, rebinding, memory resources -/

/-- C6 (the code at the failing input). `EncoderBase::add_meta_data`, the one
`Encoder2<T>` uses, returns -1 and leaves the encoded object as it was: a
protocol that adds a meta data message produces an encoded object without any
descriptor. -/
theorem EncoderBase.add_meta_data_appends_nothing :
    EncoderBase.add_meta_data ⟨0, 0⟩ [1, 2, 3] LocalSerializedWrapper.empty =
      (-1, LocalSerializedWrapper.empty) ∧
    encode2 7 (.add_meta_data [1, 2, 3] .ret) 0 = .ok ⟨[], [⟨7, none, 0⟩], []⟩ :=
  ⟨rfl, rfl⟩

/-- C7. `rebind<U>()` on `Encoder<T>`, `Encoder2<T>` and `Decoder2<T>` returns
a view bound to `U` that holds the same address of the storage / encoded
object as the original (and, for `Encoder2`, the same block provider). Hence,
in a memory of objects, a nested `encode2<T>(obj, Encoder2<U>&)` changes the
object at the address held by the `Encoder2<U>`, and no other, exactly as
`serialize2` on an `Encoder2<T>` built directly over that object does; and a
nested `decode2<T>(Decoder2<U>)` returns the same value and leaves the same
cursor as `deserialize` on a `Decoder2<T>` built directly over the handler of
the `Decoder2<U>`; for every `T` and `U`, equal or not. For instance, with
an object at every address, a nested `encode2<2>` through an `Encoder2<1>`
over the object at address 5 opens its context and writes its descriptor in
that object and leaves the object at address 6 empty, and a nested
`decode2<2>` through a `Decoder2<1>` over the handler at address 5 moves the
cursor of that handler only. -/
theorem rebind_shares_encoded_object :
    (∀ (encoder : Encoder) (U : TypeIndex),
      (encoder.rebind U).T = U ∧ (encoder.rebind U).m_storage = encoder.m_storage) ∧
    (∀ (encoder : Encoder2) (U : TypeIndex),
      (encoder.rebind U).T = U ∧
      (encoder.rebind U).base.m_encoded_object = encoder.base.m_encoded_object ∧
      (encoder.rebind U).base.m_block_provider = encoder.base.m_block_provider) ∧
    (∀ (decoder : Decoder2) (U : TypeIndex),
      (decoder.rebind U).T = U ∧
      (decoder.rebind U).m_encoded_object = decoder.m_encoded_object) ∧
    (∀ (S : Type) (m_storage : IEncodableStorage S) (encoder : Encoder) (U : TypeIndex)
        (protocol : Encoder → S → Except CodecError S) (storages : Address → S),
      (encoder.rebind U).serialize_in m_storage protocol storages =
        (Encoder.serialize m_storage ⟨U, encoder.m_storage⟩ protocol
          (storages encoder.m_storage)).map (Function.update storages encoder.m_storage)) ∧
    (∀ (T : TypeIndex) (obj : SerializeBody) (encoder : Encoder2)
        (objects : Address → LocalSerializedWrapper),
      encode2_nested_in T obj encoder objects =
        Encoder2.serialize2_in
          ⟨T, ⟨encoder.base.m_encoded_object, encoder.base.m_block_provider⟩⟩ obj objects ∧
      encode2_nested_in T obj encoder objects =
        (Encoder2.serialize2
          ⟨T, ⟨encoder.base.m_encoded_object, encoder.base.m_block_provider⟩⟩ obj
          (objects encoder.base.m_encoded_object)).map
            (Function.update objects encoder.base.m_encoded_object)) ∧
    (∀ (V : Type) (T : TypeIndex) (protocol : DeserializeBody V) (decoder : Decoder2)
        (handlers : Address → DescriptorObjectHandler),
      decode2_nested_in T protocol decoder handlers =
        Decoder2.deserialize_in ⟨T, decoder.m_encoded_object⟩ protocol handlers ∧
      decode2_nested_in T protocol decoder handlers =
        (Decoder2.deserialize ⟨T, decoder.m_encoded_object⟩ protocol
          (handlers decoder.m_encoded_object)).map
            (fun r => (r.1, Function.update handlers decoder.m_encoded_object r.2))) ∧
    (∃ objects : Address → LocalSerializedWrapper,
      encode2_nested_in 2 (.write_descriptor [1] .Eager .ret) ⟨1, ⟨5, 0⟩⟩
        (fun _ => LocalSerializedWrapper.empty) = .ok objects ∧
      objects 5 = ⟨[⟨.Eager, [1]⟩], [⟨2, none, 0⟩], []⟩ ∧
      objects 6 = LocalSerializedWrapper.empty) ∧
    (∃ handlers : Address → DescriptorObjectHandler,
      decode2_nested_in 2 (DeserializeBody.read_descriptor fun bytes => .ret bytes) ⟨1, 5⟩
        (fun _ => ⟨[⟨.Eager, [7]⟩], [⟨2, none, 0⟩], 0⟩) = .ok ([7], handlers) ∧
      handlers 5 = ⟨[⟨.Eager, [7]⟩], [⟨2, none, 0⟩], 1⟩ ∧
      handlers 6 = ⟨[⟨.Eager, [7]⟩], [⟨2, none, 0⟩], 0⟩) := by
  have henc : ∀ (T : TypeIndex) (obj : SerializeBody) (encoder : Encoder2)
      (objects : Address → LocalSerializedWrapper),
      encode2_nested_in T obj encoder objects =
        Encoder2.serialize2_in
          ⟨T, ⟨encoder.base.m_encoded_object, encoder.base.m_block_provider⟩⟩ obj objects := by
    intro T obj encoder objects
    obtain ⟨U, ⟨a, bp⟩⟩ := encoder
    unfold encode2_nested_in
    split_ifs with h
    · simp only at h
      subst h
      rfl
    · rfl
  have hdec : ∀ (V : Type) (T : TypeIndex) (protocol : DeserializeBody V) (decoder : Decoder2)
      (handlers : Address → DescriptorObjectHandler),
      decode2_nested_in T protocol decoder handlers =
        Decoder2.deserialize_in ⟨T, decoder.m_encoded_object⟩ protocol handlers := by
    intro V T protocol decoder handlers
    obtain ⟨U, a⟩ := decoder
    unfold decode2_nested_in
    split_ifs with h
    · simp only at h
      subst h
      rfl
    · rfl
  refine ⟨fun _ _ => ⟨rfl, rfl⟩, fun _ _ => ⟨rfl, rfl, rfl⟩, fun _ _ => ⟨rfl, rfl⟩, ?_, ?_, ?_,
    ⟨_, rfl, rfl, rfl⟩, ⟨_, rfl, rfl, rfl⟩⟩
  · intro S m_storage encoder U protocol storages
    simp only [Encoder.serialize_in, Encoder.rebind]
    cases Encoder.serialize m_storage ⟨U, encoder.m_storage⟩ protocol
      (storages encoder.m_storage) <;> rfl
  · intro T obj encoder objects
    refine ⟨henc T obj encoder objects, ?_⟩
    rw [henc]
    simp only [Encoder2.serialize2_in]
    cases Encoder2.serialize2
      ⟨T, ⟨encoder.base.m_encoded_object, encoder.base.m_block_provider⟩⟩ obj
      (objects encoder.base.m_encoded_object) <;> rfl
  · intro V T protocol decoder handlers
    refine ⟨hdec V T protocol decoder handlers, ?_⟩
    rw [hdec]
    simp only [Decoder2.deserialize_in]
    cases Decoder2.deserialize ⟨T, decoder.m_encoded_object⟩ protocol
      (handlers decoder.m_encoded_object) <;> rfl

/-- C8 (the code at the failing input). On a storage whose host resource is 1
and whose device resource is 2, `Decoder<T>::device_memory_resource()` returns
1, the host resource; in general it returns what `host_memory_resource()`
returns. -/
theorem Decoder.device_memory_resource_is_host :
    Decoder.device_memory_resource ⟨0, ⟨1, 2⟩⟩ = 1 ∧
    Decoder.device_memory_resource ⟨0, ⟨1, 2⟩⟩ ≠
      (⟨0, ⟨1, 2⟩⟩ : Decoder).m_storage.device_memory_resource ∧
    ∀ decoder : Decoder, decoder.device_memory_resource = decoder.host_memory_resource :=
  ⟨rfl, by decide, fun _ => rfl⟩

end mrc.codable

namespace mrc.data_plane

/-! ## Request states in `send_async` and `receive_async` -/

/-- The states `send_async` passes through, written out. -/
theorem send_async_points_eq (ucp_tag_send_nbx : FabricOp → ucs_status_ptr)
    (endpoint addr bytes tag : Nat) (w : World) :
    send_async_points ucp_tag_send_nbx endpoint addr bytes tag w =
      [w,
       ⟨w.requests, w.holders ++ [none], w.posted⟩,
       ⟨w.requests ++ [⟨⟨.null, .Init⟩, 1⟩], w.holders ++ [none], w.posted⟩,
       ⟨w.requests ++ [⟨⟨.null, .Init⟩, 2⟩], w.holders ++ [some w.requests.length], w.posted⟩,
       ⟨w.requests ++ [⟨⟨.null, .Running⟩, 2⟩], w.holders ++ [some w.requests.length], w.posted⟩,
       ⟨w.requests ++ [⟨⟨ucp_tag_send_nbx
          ⟨.send2, endpoint, addr, bytes, tag, 0, .heap w.holders.length⟩, .Running⟩, 2⟩],
        w.holders ++ [some w.requests.length],
        w.posted ++ [⟨.send2, endpoint, addr, bytes, tag, 0, .heap w.holders.length⟩]⟩] := by
  simp [send_async_points, World.new_holder, World.make_shared, World.assign_holder,
    World.update, modify_append_length, set_append_length]

/-- The states `receive_async` passes through, written out. -/
theorem receive_async_points_eq (ucp_tag_recv_nbx : FabricOp → ucs_status_ptr)
    (worker addr bytes tag mask : Nat) (w : World) :
    receive_async_points ucp_tag_recv_nbx worker addr bytes tag mask w =
      [w,
       ⟨w.requests, w.holders ++ [none], w.posted⟩,
       ⟨w.requests ++ [⟨⟨.null, .Init⟩, 1⟩], w.holders ++ [none], w.posted⟩,
       ⟨w.requests ++ [⟨⟨.null, .Init⟩, 2⟩], w.holders ++ [some w.requests.length], w.posted⟩,
       ⟨w.requests ++ [⟨⟨.null, .Running⟩, 2⟩], w.holders ++ [some w.requests.length], w.posted⟩,
       ⟨w.requests ++ [⟨⟨ucp_tag_recv_nbx
          ⟨.recv2, worker, addr, bytes, tag, mask, .local_variable "request"⟩, .Running⟩, 2⟩],
        w.holders ++ [some w.requests.length],
        w.posted ++ [⟨.recv2, worker, addr, bytes, tag, mask, .local_variable "request"⟩]⟩] := by
  simp [receive_async_points, World.new_holder, World.make_shared, World.assign_holder,
    World.update, modify_append_length, set_append_length]

/-- What `send_async` returns when the fabric accepts the send. -/
theorem send_async_eq_of_accepted (ucp_tag_send_nbx : FabricOp → ucs_status_ptr)
    (endpoint addr bytes tag : Nat) (w : World)
    (h : (ucp_tag_send_nbx
      ⟨.send2, endpoint, addr, bytes, tag, 0, .heap w.holders.length⟩).accepted) :
    send_async ucp_tag_send_nbx endpoint addr bytes tag w =
      .ok (w.requests.length,
        ⟨w.requests ++ [⟨⟨ucp_tag_send_nbx
          ⟨.send2, endpoint, addr, bytes, tag, 0, .heap w.holders.length⟩, .Running⟩, 2⟩],
        w.holders ++ [some w.requests.length],
        w.posted ++ [⟨.send2, endpoint, addr, bytes, tag, 0, .heap w.holders.length⟩]⟩) := by
  simp only [send_async, send_async_prepare_eq, if_neg h.1, h.2]
  simp [World.update, modify_append_length]

/-- What `receive_async` returns when the fabric accepts the receive. -/
theorem receive_async_eq_of_accepted (ucp_tag_recv_nbx : FabricOp → ucs_status_ptr)
    (worker addr bytes tag mask : Nat) (w : World)
    (h : (ucp_tag_recv_nbx
      ⟨.recv2, worker, addr, bytes, tag, mask, .local_variable "request"⟩).accepted) :
    receive_async ucp_tag_recv_nbx worker addr bytes tag mask w =
      .ok (w.requests.length,
        ⟨w.requests ++ [⟨⟨ucp_tag_recv_nbx
          ⟨.recv2, worker, addr, bytes, tag, mask, .local_variable "request"⟩, .Running⟩, 2⟩],
        w.holders ++ [some w.requests.length],
        w.posted ++ [⟨.recv2, worker, addr, bytes, tag, mask, .local_variable "request"⟩]⟩) := by
  simp only [receive_async, receive_async_prepare_eq, if_neg h.1, h.2]
  simp [World.update, modify_append_length]

theorem World.get_append_new (requests : List SharedRequest) (x : SharedRequest)
    (holders : List (Option Nat)) (posted : List FabricOp) :
    World.get requests.length ⟨requests ++ [x], holders, posted⟩ = some x.object := by
  simp [World.get]

theorem World.get_append_old (requests : List SharedRequest) (x : SharedRequest)
    (holders holders' : List (Option Nat)) (posted posted' : List FabricOp) (r : Nat)
    (hr : r < requests.length) :
    World.get r ⟨requests ++ [x], holders, posted⟩ = World.get r ⟨requests, holders', posted'⟩ := by
  simp [World.get, List.getElem?_append_left hr]

end mrc.data_plane

namespace mrc.data_plane

/-- C11 (counterexample). On a fresh process, with a fabric that accepts every
operation, `send_async` and `receive_async` each pass through a state (after
`m_state = Running`, before the operation is posted) in which the new request
is `Running` while its fabric request handle is still null: it is not true
that at every point a `Running` request has an accepted handle. -/
theorem running_before_accept_counterexample :
    (¬ ∀ p ∈ send_async_points (fun _ => .request 77) 1 4096 8 5 ⟨[], [], []⟩,
        p.running_accepted) ∧
    (¬ ∀ p ∈ receive_async_points (fun _ => .request 77) 0 4096 8 5 0 ⟨[], [], []⟩,
        p.running_accepted) := by
  constructor
  · intro h
    have hp := h ⟨[⟨⟨.null, .Running⟩, 2⟩], [some 0], []⟩
      (by rw [send_async_points_eq]; simp)
      ⟨⟨.null, .Running⟩, 2⟩ (List.mem_singleton.mpr rfl) rfl
    exact hp.1 rfl
  · intro h
    have hp := h ⟨[⟨⟨.null, .Running⟩, 2⟩], [some 0], []⟩
      (by rw [receive_async_points_eq]; simp)
      ⟨⟨.null, .Running⟩, 2⟩ (List.mem_singleton.mpr rfl) rfl
    exact hp.1 rfl

/-- C11 (amended). In `send_async` and `receive_async` the new request starts
in `Init` and is set to `Running` before the operation is handed to the
fabric, while its handle is still null; its state is never set back to `Init`,
and no other request is touched. When the fabric accepts the operation, the
request returned to the caller is that request, in `Running`, with the
accepted (non-null, non-error) handle. -/
theorem running_set_before_post (ucp_tag_send_nbx ucp_tag_recv_nbx : FabricOp → ucs_status_ptr)
    (endpoint worker addr bytes tag mask : Nat) (w : World)
    (haccept : ∀ op : FabricOp,
      (ucp_tag_send_nbx op).accepted ∧ (ucp_tag_recv_nbx op).accepted) :
    ((send_async_points ucp_tag_send_nbx endpoint addr bytes tag w).map
        (fun p => p.get w.requests.length) =
      [none, none, some ⟨.null, .Init⟩, some ⟨.null, .Init⟩, some ⟨.null, .Running⟩,
        some ⟨ucp_tag_send_nbx ⟨.send2, endpoint, addr, bytes, tag, 0, .heap w.holders.length⟩,
          .Running⟩] ∧
      (∀ p ∈ send_async_points ucp_tag_send_nbx endpoint addr bytes tag w,
        ∀ r : Nat, r < w.requests.length → p.get r = w.get r) ∧
      ∃ (w' : World) (q : Request),
        send_async ucp_tag_send_nbx endpoint addr bytes tag w = .ok (w.requests.length, w') ∧
        (send_async_points ucp_tag_send_nbx endpoint addr bytes tag w).getLast? = some w' ∧
        w'.get w.requests.length = some q ∧ q.m_state = .Running ∧ q.m_request.accepted) ∧
    ((receive_async_points ucp_tag_recv_nbx worker addr bytes tag mask w).map
        (fun p => p.get w.requests.length) =
      [none, none, some ⟨.null, .Init⟩, some ⟨.null, .Init⟩, some ⟨.null, .Running⟩,
        some ⟨ucp_tag_recv_nbx
          ⟨.recv2, worker, addr, bytes, tag, mask, .local_variable "request"⟩, .Running⟩] ∧
      (∀ p ∈ receive_async_points ucp_tag_recv_nbx worker addr bytes tag mask w,
        ∀ r : Nat, r < w.requests.length → p.get r = w.get r) ∧
      ∃ (w' : World) (q : Request),
        receive_async ucp_tag_recv_nbx worker addr bytes tag mask w =
          .ok (w.requests.length, w') ∧
        (receive_async_points ucp_tag_recv_nbx worker addr bytes tag mask w).getLast? = some w' ∧
        w'.get w.requests.length = some q ∧ q.m_state = .Running ∧ q.m_request.accepted) := by
  have hnone : ∀ (holders : List (Option Nat)) (posted : List FabricOp),
      World.get w.requests.length ⟨w.requests, holders, posted⟩ = none := by
    intro holders posted
    simp [World.get]
  have hold : ∀ (holders : List (Option Nat)) (posted : List FabricOp) (r : Nat),
      World.get r ⟨w.requests, holders, posted⟩ = w.get r := fun _ _ _ => rfl
  refine ⟨⟨?_, ?_, ?_⟩, ?_, ?_, ?_⟩
  · rw [send_async_points_eq]
    simp only [List.map_cons, List.map_nil, World.get_append_new, hnone]
  · intro p hp r hr
    rw [send_async_points_eq] at hp
    simp only [List.mem_cons, List.mem_singleton, List.not_mem_nil, or_false] at hp
    rcases hp with rfl | rfl | rfl | rfl | rfl | rfl
    · rfl
    · rfl
    · exact World.get_append_old _ _ _ _ _ _ r hr
    · exact World.get_append_old _ _ _ _ _ _ r hr
    · exact World.get_append_old _ _ _ _ _ _ r hr
    · exact World.get_append_old _ _ _ _ _ _ r hr
  · refine ⟨_, _, send_async_eq_of_accepted _ _ _ _ _ w (haccept _).1, ?_,
      World.get_append_new _ _ _ _, rfl, (haccept _).1⟩
    rw [send_async_points_eq]
    rfl
  · rw [receive_async_points_eq]
    simp only [List.map_cons, List.map_nil, World.get_append_new, hnone]
  · intro p hp r hr
    rw [receive_async_points_eq] at hp
    simp only [List.mem_cons, List.mem_singleton, List.not_mem_nil, or_false] at hp
    rcases hp with rfl | rfl | rfl | rfl | rfl | rfl
    · rfl
    · rfl
    · exact World.get_append_old _ _ _ _ _ _ r hr
    · exact World.get_append_old _ _ _ _ _ _ r hr
    · exact World.get_append_old _ _ _ _ _ _ r hr
    · exact World.get_append_old _ _ _ _ _ _ r hr
  · refine ⟨_, _, receive_async_eq_of_accepted _ _ _ _ _ _ w (haccept _).2, ?_,
      World.get_append_new _ _ _ _, rfl, (haccept _).2⟩
    rw [receive_async_points_eq]
    rfl

/-- Witness for C11 (amended): a process that already holds one completed
request, with a fabric that accepts every operation. -/
theorem running_set_before_post_witness :
    ((send_async_points (fun _ => .request 77) 1 4096 8 5
          ⟨[⟨⟨.request 3, .Completed⟩, 1⟩], [], []⟩).map (fun p => p.get 1) =
      [none, none, some ⟨.null, .Init⟩, some ⟨.null, .Init⟩, some ⟨.null, .Running⟩,
        some ⟨.request 77, .Running⟩]) ∧
    ((receive_async_points (fun _ => .request 78) 0 4096 8 5 0
          ⟨[⟨⟨.request 3, .Completed⟩, 1⟩], [], []⟩).map (fun p => p.get 1) =
      [none, none, some ⟨.null, .Init⟩, some ⟨.null, .Init⟩, some ⟨.null, .Running⟩,
        some ⟨.request 78, .Running⟩]) :=
  have h := running_set_before_post (fun _ => .request 77) (fun _ => .request 78)
    1 0 4096 8 5 0 ⟨[⟨⟨.request 3, .Completed⟩, 1⟩], [], []⟩
    (fun _ => ⟨⟨fun h => ucs_status_ptr.noConfusion h, rfl⟩,
      ⟨fun h => ucs_status_ptr.noConfusion h, rfl⟩⟩)
  ⟨h.1.1, h.2.1⟩

end mrc.data_plane

namespace mrc.data_plane

/-! ## `progress` and `flush` -/

/-- The loop of `flush` on a worker whose `progress()` first returns 0 at its
call number `n` (counting from 0): with more than `n` calls allowed it ends in
the state after `n + 1` calls, having seen exactly the counts of those calls;
with at most `n` calls allowed it has not ended. -/
theorem DataPlaneResources2.flush_spec {W : Type} (m_worker : Worker W) (n : Nat) :
    ∀ w : W, (m_worker.progress (m_worker.advance n w)).1 = 0 →
      (∀ k : Nat, k < n → (m_worker.progress (m_worker.advance k w)).1 ≠ 0) →
      ∀ fuel : Nat,
        (n < fuel →
          DataPlaneResources2.flush m_worker fuel w = some (m_worker.advance (n + 1) w) ∧
          DataPlaneResources2.flush_counts m_worker fuel w =
            some ((List.range (n + 1)).map
              (fun k => (m_worker.progress (m_worker.advance k w)).1))) ∧
        (fuel ≤ n → DataPlaneResources2.flush m_worker fuel w = none) := by
  induction n with
  | zero =>
    intro w hzero _ fuel
    refine ⟨fun hf => ?_, fun hf => ?_⟩
    · obtain ⟨f, rfl⟩ : ∃ f, fuel = f + 1 := ⟨fuel - 1, by omega⟩
      have h0 : (m_worker.progress w).1 = 0 := hzero
      simp [DataPlaneResources2.flush, DataPlaneResources2.flush_counts, h0, Worker.advance,
        List.range_succ]
    · have : fuel = 0 := by omega
      subst this
      rfl
  | succ n ih =>
    intro w hzero hmin fuel
    have h0 : (m_worker.progress w).1 ≠ 0 := hmin 0 (by omega)
    have ih' := ih (m_worker.progress w).2 hzero (fun k hk => hmin (k + 1) (by omega))
    refine ⟨fun hf => ?_, fun hf => ?_⟩
    · obtain ⟨f, rfl⟩ : ∃ f, fuel = f + 1 := ⟨fuel - 1, by omega⟩
      obtain ⟨h1, h2⟩ := (ih' f).1 (by omega)
      refine ⟨?_, ?_⟩
      · simp only [DataPlaneResources2.flush, h0, ne_eq, not_false_eq_true, if_true, h1]
        rfl
      · simp only [DataPlaneResources2.flush_counts, h0, ne_eq, not_false_eq_true, if_true, h2,
          Option.map_some']
        rw [List.range_succ_eq_map (n + 1)]
        simp only [List.map_cons, List.map_map]
        rfl
    · cases fuel with
      | zero => rfl
      | succ f =>
        simp only [DataPlaneResources2.flush, h0, ne_eq, not_false_eq_true, if_true]
        exact (ih' f).2 (by omega)

/-- C12 (counterexample). On an idle worker `flush()` does not return 0: it
is a `void` function and hands nothing back to its caller (only `progress()`
returns a count). -/
theorem flush_returns_nothing_counterexample :
    (⟨fun w : Nat => (min w 1, w - 1)⟩ : Worker Nat).progress 0 = (0, 0) ∧
    DataPlaneResources2.flush_returned ⟨fun w : Nat => (min w 1, w - 1)⟩ 1 0 = some .void ∧
    DataPlaneResources2.flush_returned ⟨fun w : Nat => (min w 1, w - 1)⟩ 1 0 ≠
      some (.uint32 0) ∧
    DataPlaneResources2.progress_returned ⟨fun w : Nat => (min w 1, w - 1)⟩ 0 = .uint32 0 :=
  ⟨rfl, rfl, by decide, rfl⟩

/-- C12 (amended). `flush()` is idempotent on an idle worker: in a worker
state in which `progress()` returns 0 without changing the state, `flush()`
returns after its first `progress()` call, which returns 0, hands back nothing
(it is `void`) and leaves the worker state unchanged; so `flush(); flush()`
leaves the same state as a single `flush()`. -/
theorem flush_idempotent_on_idle {W : Type} (m_worker : Worker W) (w : W)
    (hidle : m_worker.progress w = (0, w)) (fuel : Nat) :
    DataPlaneResources2.flush m_worker (fuel + 1) w = some w ∧
    DataPlaneResources2.flush_counts m_worker (fuel + 1) w = some [0] ∧
    DataPlaneResources2.flush_returned m_worker (fuel + 1) w = some .void ∧
    (DataPlaneResources2.flush m_worker (fuel + 1) w).bind
        (DataPlaneResources2.flush m_worker (fuel + 1)) =
      DataPlaneResources2.flush m_worker (fuel + 1) w := by
  have h1 : DataPlaneResources2.flush m_worker (fuel + 1) w = some w := by
    simp [DataPlaneResources2.flush, hidle]
  refine ⟨h1, ?_, ?_, ?_⟩
  · simp [DataPlaneResources2.flush_counts, hidle]
  · simp [DataPlaneResources2.flush_returned, h1]
  · rw [h1]
    exact h1

/-- Witness for C12 (amended): a worker whose state is the number of
operations in flight, each `progress()` completing one of them; no operation
in flight. -/
theorem flush_idempotent_on_idle_witness :
    DataPlaneResources2.flush ⟨fun w : Nat => (min w 1, w - 1)⟩ (0 + 1) 0 = some 0 ∧
    DataPlaneResources2.flush_counts ⟨fun w : Nat => (min w 1, w - 1)⟩ (0 + 1) 0 = some [0] ∧
    DataPlaneResources2.flush_returned ⟨fun w : Nat => (min w 1, w - 1)⟩ (0 + 1) 0 =
      some .void ∧
    (DataPlaneResources2.flush ⟨fun w : Nat => (min w 1, w - 1)⟩ (0 + 1) 0).bind
        (DataPlaneResources2.flush ⟨fun w : Nat => (min w 1, w - 1)⟩ (0 + 1)) =
      DataPlaneResources2.flush ⟨fun w : Nat => (min w 1, w - 1)⟩ (0 + 1) 0 :=
  flush_idempotent_on_idle ⟨fun w : Nat => (min w 1, w - 1)⟩ 0 rfl 0

/-- C13. `progress()` forwards the worker exactly once and returns its count.
For a worker whose `progress()` returns 0 after finitely many calls, `flush()`
terminates: with `n` the number of the first call that returns 0, it makes
exactly the calls number `0 .. n`, of which all but the last returned a
non-zero count, and returns right after call `n`, in the state that call
left; it does not return earlier. -/
theorem flush_progresses_until_idle {W : Type} (m_worker : Worker W) (w : W)
    (hidle : ∃ m : Nat, (m_worker.progress (m_worker.advance m w)).1 = 0) :
    DataPlaneResources2.progress m_worker w = m_worker.progress w ∧
    ∃ n : Nat, (m_worker.progress (m_worker.advance n w)).1 = 0 ∧
      (∀ k : Nat, k < n → (m_worker.progress (m_worker.advance k w)).1 ≠ 0) ∧
      (∀ fuel : Nat, n < fuel →
        DataPlaneResources2.flush m_worker fuel w = some (m_worker.advance (n + 1) w) ∧
        DataPlaneResources2.flush_counts m_worker fuel w =
          some ((List.range (n + 1)).map
            (fun k => (m_worker.progress (m_worker.advance k w)).1))) ∧
      (∀ fuel : Nat, fuel ≤ n → DataPlaneResources2.flush m_worker fuel w = none) := by
  classical
  refine ⟨rfl, Nat.find hidle, Nat.find_spec hidle, fun k hk => Nat.find_min hidle hk, ?_, ?_⟩
  · intro fuel hf
    exact ((DataPlaneResources2.flush_spec m_worker (Nat.find hidle) w (Nat.find_spec hidle)
      (fun k hk => Nat.find_min hidle hk)) fuel).1 hf
  · intro fuel hf
    exact ((DataPlaneResources2.flush_spec m_worker (Nat.find hidle) w (Nat.find_spec hidle)
      (fun k hk => Nat.find_min hidle hk)) fuel).2 hf

/-- Witness for C13: a worker with two operations in flight, each
`progress()` completing one of them. -/
theorem flush_progresses_until_idle_witness :
    DataPlaneResources2.progress ⟨fun w : Nat => (min w 1, w - 1)⟩ 2 = (1, 1) ∧
    ∃ n : Nat,
      ((⟨fun w : Nat => (min w 1, w - 1)⟩ : Worker Nat).progress
        ((⟨fun w : Nat => (min w 1, w - 1)⟩ : Worker Nat).advance n 2)).1 = 0 ∧
      (∀ k : Nat, k < n → ((⟨fun w : Nat => (min w 1, w - 1)⟩ : Worker Nat).progress
        ((⟨fun w : Nat => (min w 1, w - 1)⟩ : Worker Nat).advance k 2)).1 ≠ 0) ∧
      (∀ fuel : Nat, n < fuel →
        DataPlaneResources2.flush ⟨fun w : Nat => (min w 1, w - 1)⟩ fuel 2 =
          some ((⟨fun w : Nat => (min w 1, w - 1)⟩ : Worker Nat).advance (n + 1) 2) ∧
        DataPlaneResources2.flush_counts ⟨fun w : Nat => (min w 1, w - 1)⟩ fuel 2 =
          some ((List.range (n + 1)).map
            (fun k => ((⟨fun w : Nat => (min w 1, w - 1)⟩ : Worker Nat).progress
              ((⟨fun w : Nat => (min w 1, w - 1)⟩ : Worker Nat).advance k 2)).1))) ∧
      (∀ fuel : Nat, fuel ≤ n →
        DataPlaneResources2.flush ⟨fun w : Nat => (min w 1, w - 1)⟩ fuel 2 = none) :=
  flush_progresses_until_idle ⟨fun w : Nat => (min w 1, w - 1)⟩ 2 ⟨2, rfl⟩

end mrc.data_plane

namespace mrc.codable

/-! ## The decoding cursor -/

/-- Running a protocol moves the cursor by the number of nested `decode2`
calls it triggers, and changes nothing else of the handler. -/
theorem detail.deserialize2_payload_idx {V : Type} (protocol : DeserializeBody V) :
    ∀ (decoder : Decoder2) (h h2 : DescriptorObjectHandler) (value : V),
      detail.deserialize2 decoder protocol h = .ok (value, h2) →
      h2.payload_idx = h.payload_idx + detail.nested_decode2_calls decoder protocol h ∧
      h2.descriptors = h.descriptors ∧ h2.objects = h.objects := by
  induction protocol with
  | ret v =>
    intro decoder h h2 value hrun
    simp only [detail.deserialize2, Except.ok.injEq, Prod.mk.injEq] at hrun
    obtain ⟨_, rfl⟩ := hrun
    simp [detail.nested_decode2_calls]
  | read_descriptor k ih =>
    intro decoder h h2 value hrun
    simp only [detail.deserialize2, detail.nested_decode2_calls] at hrun ⊢
    cases hread : DecoderBase.read_descriptor h with
    | error e => rw [hread] at hrun; cases hrun
    | ok bytes =>
      rw [hread] at hrun
      exact ih bytes decoder h h2 value hrun
  | descriptor_size k ih =>
    intro decoder h h2 value hrun
    simp only [detail.deserialize2, detail.nested_decode2_calls] at hrun ⊢
    cases hsize : DecoderBase.descriptor_size h with
    | error e => rw [hsize] at hrun; cases hrun
    | ok n =>
      rw [hsize] at hrun
      exact ih n decoder h h2 value hrun
  | decode2 U member k ihm ihk =>
    intro decoder h h2 value hrun
    simp only [detail.deserialize2, detail.nested_decode2_calls] at hrun ⊢
    cases hmem : detail.deserialize2 (if U = decoder.T then decoder else decoder.rebind U)
        member h with
    | error e => rw [hmem] at hrun; cases hrun
    | ok r =>
      obtain ⟨v1, h1⟩ := r
      rw [hmem] at hrun
      simp only [hmem]
      obtain ⟨m1, m2, m3⟩ := ihm _ h h1 v1 hmem
      obtain ⟨k1, k2, k3⟩ := ihk v1 decoder h1.increment_payload_idx h2 value hrun
      have hinc : h1.increment_payload_idx.payload_idx = h1.payload_idx + 1 := rfl
      refine ⟨?_, k2.trans m2, k3.trans m3⟩
      rw [k1, hinc, m1]
      omega

/-- C14. Every call of `Decoder2<T>::deserialize` that returns a value has
incremented the payload index exactly once, after `detail::deserialize2<T>`
returned that value. Hence a top-level `decode2` whose protocol triggers `n`
nested `decode2` calls moves the cursor by exactly `n + 1`: by `n` while the
protocol runs, and by the increment for the outermost value last. -/
theorem decode2_advances_cursor {V : Type} (T : TypeIndex) (protocol : DeserializeBody V)
    (encoded h' : DescriptorObjectHandler) (value : V)
    (hok : decode2 T protocol encoded = .ok (value, h')) :
    (∀ (decoder : Decoder2) (p : DeserializeBody V) (h hh : DescriptorObjectHandler) (v : V),
      decoder.deserialize p h = .ok (v, hh) →
      ∃ h2 : DescriptorObjectHandler, detail.deserialize2 decoder p h = .ok (v, h2) ∧
        hh = h2.increment_payload_idx ∧ hh.payload_idx = h2.payload_idx + 1) ∧
    (∃ h2 : DescriptorObjectHandler, detail.deserialize2 ⟨T, top_level_object⟩ protocol encoded = .ok (value, h2) ∧
      h2.payload_idx = encoded.payload_idx + detail.nested_decode2_calls ⟨T, top_level_object⟩ protocol encoded ∧
      h' = h2.increment_payload_idx) ∧
    h'.payload_idx =
      encoded.payload_idx + (detail.nested_decode2_calls ⟨T, top_level_object⟩ protocol encoded + 1) := by
  have hdes : ∀ (decoder : Decoder2) (p : DeserializeBody V) (h hh : DescriptorObjectHandler)
      (v : V), decoder.deserialize p h = .ok (v, hh) →
      ∃ h2 : DescriptorObjectHandler, detail.deserialize2 decoder p h = .ok (v, h2) ∧
        hh = h2.increment_payload_idx ∧ hh.payload_idx = h2.payload_idx + 1 := by
    intro decoder p h hh v hrun
    unfold Decoder2.deserialize at hrun
    cases hd : detail.deserialize2 decoder p h with
    | error e => rw [hd] at hrun; cases hrun
    | ok r =>
      obtain ⟨v1, h1⟩ := r
      rw [hd] at hrun
      simp only [Except.ok.injEq, Prod.mk.injEq] at hrun
      obtain ⟨rfl, rfl⟩ := hrun
      exact ⟨h1, rfl, rfl, rfl⟩
  have hdec : Decoder2.deserialize ⟨T, top_level_object⟩ protocol encoded = .ok (value, h') := by
    simpa only [decode2, decode2_nested, if_true] using hok
  obtain ⟨h2, hrun, hinc, hidx⟩ := hdes ⟨T, top_level_object⟩ protocol encoded h' value hdec
  obtain ⟨hp, _, _⟩ := detail.deserialize2_payload_idx protocol ⟨T, top_level_object⟩ encoded h2 value hrun
  refine ⟨hdes, ⟨h2, hrun, hp, hinc⟩, ?_⟩
  rw [hidx, hp]
  omega

/-- Witness for C14: decoding an encoded byte vector; the protocol makes one
nested `decode2` call (for the length), and the cursor ends at 2. -/
theorem decode2_advances_cursor_witness :
    (∃ h2 : DescriptorObjectHandler,
      detail.deserialize2 ⟨1, top_level_object⟩ byte_vector_protocol.deserialize
        ⟨[⟨.Eager, [3]⟩, ⟨.Eager, [5, 6, 7]⟩], [⟨1, none, 0⟩, ⟨2, some 0, 0⟩], 0⟩ =
          .ok ([5, 6, 7], h2) ∧
      h2.payload_idx = 0 + detail.nested_decode2_calls ⟨1, top_level_object⟩ byte_vector_protocol.deserialize
        ⟨[⟨.Eager, [3]⟩, ⟨.Eager, [5, 6, 7]⟩], [⟨1, none, 0⟩, ⟨2, some 0, 0⟩], 0⟩ ∧
      (⟨[⟨.Eager, [3]⟩, ⟨.Eager, [5, 6, 7]⟩], [⟨1, none, 0⟩, ⟨2, some 0, 0⟩], 2⟩ :
        DescriptorObjectHandler) = h2.increment_payload_idx) ∧
    (2 : Nat) = 0 + (detail.nested_decode2_calls ⟨1, top_level_object⟩ byte_vector_protocol.deserialize
      ⟨[⟨.Eager, [3]⟩, ⟨.Eager, [5, 6, 7]⟩], [⟨1, none, 0⟩, ⟨2, some 0, 0⟩], 0⟩ + 1) :=
  (decode2_advances_cursor 1 byte_vector_protocol.deserialize
    ⟨[⟨.Eager, [3]⟩, ⟨.Eager, [5, 6, 7]⟩], [⟨1, none, 0⟩, ⟨2, some 0, 0⟩], 0⟩
    ⟨[⟨.Eager, [3]⟩, ⟨.Eager, [5, 6, 7]⟩], [⟨1, none, 0⟩, ⟨2, some 0, 0⟩], 2⟩
    [5, 6, 7] rfl).2

end mrc.codable

namespace mrc.data_plane

/-! ## Service lifecycle -/

/-- C15 (the code at the failing input). The constructor of
`DataPlaneResources` leaves `m_client` null (its initialiser is commented
out), and `service_start()` → `do_service_start()` dereferences it right after
starting the server: whatever server object is constructed, the constructor
ends in a null dereference of `m_client`. -/
theorem DataPlaneResources.constructor_dereferences_null_client :
    DataPlaneResources.constructor 0 = .error (.null_dereference .m_client) ∧
    DataPlaneResources.on_server .service_start ⟨some 0, none, []⟩ =
      .ok ⟨some 0, none, [(.m_server, .service_start)]⟩ ∧
    ∀ server : Nat,
      DataPlaneResources.constructor server = .error (.null_dereference .m_client) :=
  ⟨rfl, rfl, fun _ => rfl⟩

/-- C16. On a `DataPlaneResources` whose server and client exist,
`do_service_start` starts the server, then the client; `do_service_stop` stops
only the client; and `do_service_stop` followed by `do_service_await_join`
makes exactly the calls: client stop, client join, server stop, server join.
So the server is stopped only after the client has been stopped and joined,
and the server is the last to be joined. -/
theorem DataPlaneResources.shutdown_order (self : DataPlaneResources) (server client : Nat)
    (hs : self.m_server = some server) (hc : self.m_client = some client) :
    (∃ started : DataPlaneResources, self.do_service_start = .ok started ∧
      started.calls = self.calls ++ [(.m_server, .service_start), (.m_client, .service_start)]) ∧
    (∃ stopped joined : DataPlaneResources,
      self.do_service_stop = .ok stopped ∧
      stopped.calls = self.calls ++ [(.m_client, .service_stop)] ∧
      stopped.do_service_await_join = .ok joined ∧
      joined.calls = self.calls ++
        [(.m_client, .service_stop), (.m_client, .service_await_join),
         (.m_server, .service_stop), (.m_server, .service_await_join)]) := by
  obtain ⟨ms, mc, calls⟩ := self
  simp only at hs hc
  subst hs hc
  refine ⟨⟨_, rfl, ?_⟩, _, _, rfl, rfl, rfl, ?_⟩
  · simp
  · simp

/-- Witness for C16: a started `DataPlaneResources` with server 0 and
client 1. -/
theorem DataPlaneResources.shutdown_order_witness :
    (∃ started : DataPlaneResources,
      DataPlaneResources.do_service_start ⟨some 0, some 1, []⟩ = .ok started ∧
      started.calls = [] ++ [(.m_server, .service_start), (.m_client, .service_start)]) ∧
    (∃ stopped joined : DataPlaneResources,
      DataPlaneResources.do_service_stop ⟨some 0, some 1, []⟩ = .ok stopped ∧
      stopped.calls = [] ++ [(.m_client, .service_stop)] ∧
      stopped.do_service_await_join = .ok joined ∧
      joined.calls = [] ++
        [(.m_client, .service_stop), (.m_client, .service_await_join),
         (.m_server, .service_stop), (.m_server, .service_await_join)]) :=
  DataPlaneResources.shutdown_order ⟨some 0, some 1, []⟩ 0 1 rfl rfl

end mrc.data_plane
